import Mathlib

/-!
Verification development for the FREx explainable recommender framework.

The hard core of the repository is `frex/models/constraints/section_set_constraint.py`:
a fluent builder (`SectionSetConstraint`) that collects per-section attribute, count,
cross-section assignment, item-ordering and hierarchical AND/OR constraints and then
compiles them (`setup_section_constraints`) into a CP-SAT model over 0/1 variables.
We shallow-embed the builder state and the compilation into Lean: CP-SAT variables
become an inductive `Var` type, posted constraints become a small deep-embedded
constraint language `Cstr` with a Boolean satisfaction function, and the compilation
is a Lean function from builder state and candidate items to a list of constraints
(failing lookups in Python dictionaries become `Except` errors, mirroring `KeyError`).
Feasible solutions of the compiled model are 0/1 valuations satisfying every
emitted constraint.

The candidate pipeline's ranker (`frex/pipeline_stages/scorers/candidate_ranker.py`)
is embedded as a stable descending sort on `total_score`.
-/

namespace Frex

/-- CP-SAT variables created by the compilation:
`sel i` is `item_selection[i]` (supplied by the outer composition),
`asg i s` is the assignment indicator `self._item_assignments[i, s]`,
and `b n` is the `n`-th boolean variable created through `model.NewBoolVar("")`. -/
inductive Var where
  | sel (i : Nat)
  | asg (i s : Nat)
  | b (n : Nat)
deriving DecidableEq, Repr

/-- Modelled from the spec: the class `ConstraintType` lives in
`frex/models/constraints/__init__` which is not part of the provided sources; the spec
describes it as a tagged value drawn from EQ, LEQ, GEQ, LESS, GRTR and AM1 (at most one),
each carrying a binary predicate over integers producing a linear relation. -/
inductive ConstraintType where
  | EQ | LEQ | GEQ | LESS | GRTR | AM1
deriving DecidableEq, Repr

/-- Modelled from the spec: the relation each `ConstraintType` tag carries.
AM1 relates two indicators by at-most-one. -/
def ConstraintType.holds : ConstraintType → ℤ → ℤ → Bool
  | .EQ, x, y => x == y
  | .LEQ, x, y => decide (x ≤ y)
  | .GEQ, x, y => decide (y ≤ x)
  | .LESS, x, y => decide (x < y)
  | .GRTR, x, y => decide (y < x)
  | .AM1, x, y => decide (x + y ≤ 1)

/-- A linear expression: a list of (constant coefficient, variable) terms plus a constant.
All coefficients are compile-time constants in the source (filter values, scaled
attribute values, section positions), so every posted constraint is linear. -/
structure LinExpr where
  terms : List (ℤ × Var)
  const : ℤ
deriving DecidableEq, Repr

def LinExpr.ofVar (v : Var) : LinExpr := ⟨[(1, v)], 0⟩

def LinExpr.konst (q : ℤ) : LinExpr := ⟨[], q⟩

def LinExpr.eval (σ : Var → ℤ) (e : LinExpr) : ℤ :=
  (e.terms.map (fun t => t.1 * σ t.2)).sum + e.const

/-- An enforcement literal, as used by `OnlyEnforceIf`: `(v, true)` requires `v = 1`
(plain boolean), `(v, false)` requires `v = 0` (a negated boolean, `v.Not()`). -/
abbrev Lit := Var × Bool

def Lit.value (σ : Var → ℤ) (l : Lit) : ℤ := σ l.1

def Lit.target (l : Lit) : ℤ := if l.2 then 1 else 0

/-- Constraints posted to the CP-SAT model: a relational constraint between two linear
expressions, optionally guarded by `OnlyEnforceIf` literals, or `AddMaxEquality`. -/
inductive Cstr where
  | rel (t : ConstraintType) (lhs rhs : LinExpr) (enforce : List Lit)
  | maxEq (v : Var) (vs : List Var)
deriving DecidableEq, Repr

def listMax (l : List ℤ) : ℤ := l.foldr max 0

/-- Satisfaction of a single posted constraint by a valuation. A `rel` constraint
guarded by `OnlyEnforceIf` literals only binds when every literal takes its target
value; `maxEq` requires the target variable to equal the maximum of its arguments. -/
def Cstr.sat (σ : Var → ℤ) : Cstr → Bool
  | .rel t lhs rhs enforce =>
      if enforce.all (fun l => Lit.value σ l == Lit.target l) then
        t.holds (lhs.eval σ) (rhs.eval σ)
      else true
  | .maxEq v vs => σ v == listMax (vs.map σ)

/-- A valuation satisfies a compiled model when it satisfies every posted constraint. -/
def SatAll (σ : Var → ℤ) (cs : List Cstr) : Prop := cs.all (Cstr.sat σ) = true

/-- All CP-SAT variables used by the compilation are 0/1 variables
(`NewIntVar(0, 1, "")`, `NewBoolVar("")`, and the outer selection indicators). -/
def ZeroOne (σ : Var → ℤ) : Prop := ∀ v, σ v = 0 ∨ σ v = 1

/-! ## Data model

URIs are opaque identifiers; we embed `rdflib.URIRef` as `Nat`. Attribute names stay
strings. Numeric attribute values and scores (Python floats) are embedded as `ℚ`. -/

abbrev URIRef := Nat

/-- A domain object: a unique URI plus named numeric attributes.
Modelled from the spec: the `DomainObject` class and the dotted-attribute reader
`rgetattr` of `frex/utils/common` are not part of the provided sources; the spec says
to model a domain object as an identifier plus a name-to-numeric mapping, with
`rgetattr` reading a possibly nested numeric attribute off it by dotted name. -/
structure DomainObject where
  uri : URIRef
  attrs : String → ℚ

/-- Modelled from the spec: `rgetattr` resolves an attribute name on a domain object. -/
def rgetattr (d : DomainObject) (name : String) : ℚ := d.attrs name

/-- Modelled from the spec: a `Candidate` wraps a domain object with parallel trails
of explanations and scores; `total_score` is the sum of the applied scores. The class
itself is not part of the provided sources. -/
structure Candidate where
  domain_object : DomainObject
  applied_explanations : List String
  applied_scores : List ℚ

def Candidate.total_score (c : Candidate) : ℚ := c.applied_scores.sum

/-- `AttributeConstraint(attribute_name, constraint_type, constraint_value)`. -/
structure AttributeConstraint where
  attribute_name : String
  constraint_type : ConstraintType
  constraint_value : ℤ
deriving DecidableEq, Repr

/-- `SectionAssignmentConstraint(constraint_type, section_a_uri, section_b_uri)`. -/
structure SectionAssignmentConstraint where
  constraint_type : ConstraintType
  section_a_uri : URIRef
  section_b_uri : URIRef
deriving DecidableEq, Repr

/-- `ItemConstraint(constraint_type, item_a_uri, item_b_uri)` for ordering constraints;
`item_a_uri` is the independent item, `item_b_uri` the dependent one. -/
structure ItemConstraint where
  constraint_type : ConstraintType
  item_a_uri : URIRef
  item_b_uri : URIRef
deriving DecidableEq, Repr

/-- `SectionConstraintHierarchy(root_uri, dependency_and, dependency_or)`: a rose tree
of sections whose constraints are conditionally enforced through AND/OR booleans. -/
inductive SectionConstraintHierarchy where
  | node (root_uri : URIRef)
      (dependency_and : List SectionConstraintHierarchy)
      (dependency_or : List SectionConstraintHierarchy)

/-! ## Python dictionary and enumeration helpers

`_uri_to_index` and friends are Python dicts: insertion-ordered association lists with
unique keys where assigning to an existing key overwrites it in place. -/

abbrev Dict (κ ν : Type) := List (κ × ν)

/-- `d[k] = v` on a Python dict: overwrite in place if the key exists, else append. -/
def dictSet [DecidableEq κ] (d : Dict κ ν) (k : κ) (v : ν) : Dict κ ν :=
  if d.any (fun p => p.1 = k) then
    d.map (fun p => if p.1 = k then (k, v) else p)
  else d ++ [(k, v)]

/-- `d[k]` on a Python dict, `none` standing for a raised `KeyError`. -/
def dictGet? [DecidableEq κ] (d : Dict κ ν) (k : κ) : Option ν :=
  (d.find? (fun p => p.1 = k)).map (fun p => p.2)

/-- `d.values()` on a Python dict. -/
def dictValues (d : Dict κ ν) : List ν := d.map (fun p => p.2)

/-- `enumerate(l)`: pair every element with its index. -/
def enumerate (l : List α) : List (Nat × α) :=
  (List.range l.length).zip l

/-- `KeyError`: look a key up in a dict, raising on a missing key. -/
def dictGetE [DecidableEq κ] (d : Dict κ ν) (k : κ) : Except String ν :=
  match dictGet? d k with
  | some v => Except.ok v
  | none => Except.error "KeyError"

/-! ## Builder state: `SectionSetConstraint`

The mutable fields of the Python class. The `defaultdict` fields keyed by a section
index are embedded as total functions out of `Nat` whose initial value is the
default the `defaultdict` produces (an empty list, or the always-true filter). -/

structure SectionSetConstraint where
  sections : List DomainObject
  uri_to_index : Dict URIRef Nat
  targeted_section_constraints : Nat → List AttributeConstraint
  section_constraint_hierarchies : List SectionConstraintHierarchy
  assignment_count_constraint : Nat → List AttributeConstraint
  section_assignment_filter : Nat → DomainObject → Bool
  allow_invalid_assignment : List Nat
  section_assignment_constraints : List SectionAssignmentConstraint
  item_ordering_constraints : List ItemConstraint
  required_item_assignments : Dict URIRef URIRef
  scaling : ℤ

namespace SectionSetConstraint

/-- `SectionSetConstraint(scaling=scaling)`: the freshly initialised builder. -/
def init (scaling : ℤ) : SectionSetConstraint where
  sections := []
  uri_to_index := []
  targeted_section_constraints := fun _ => []
  section_constraint_hierarchies := []
  assignment_count_constraint := fun _ => []
  section_assignment_filter := fun _ _ => true
  allow_invalid_assignment := []
  section_assignment_constraints := []
  item_ordering_constraints := []
  required_item_assignments := []
  scaling := scaling

/-- `set_sections`: store the tuple and record each section URI's index in
`_uri_to_index`. The dict is not cleared, so entries from an earlier call survive
unless a URI is re-registered. -/
def set_sections (b : SectionSetConstraint) (secs : List DomainObject) :
    SectionSetConstraint :=
  { b with
    sections := secs
    uri_to_index :=
      (enumerate secs).foldl (fun d p => dictSet d p.2.uri p.1) b.uri_to_index }

/-- `set_section_assignment_filter`: `self._section_assignment_filter[self._uri_to_index[target_uri]] = filter_function`. -/
def set_section_assignment_filter (b : SectionSetConstraint) (target_uri : URIRef)
    (filter_function : DomainObject → Bool) : Except String SectionSetConstraint := do
  let idx ← dictGetE b.uri_to_index target_uri
  Except.ok { b with
    section_assignment_filter := fun j =>
      if j = idx then filter_function else b.section_assignment_filter j }

/-- `allow_invalid_assignment_to_section`. -/
def allow_invalid_assignment_to_section (b : SectionSetConstraint)
    (target_uri : URIRef) : Except String SectionSetConstraint := do
  let idx ← dictGetE b.uri_to_index target_uri
  Except.ok { b with allow_invalid_assignment := b.allow_invalid_assignment ++ [idx] }

/-- Append attribute constraints to a `defaultdict`-backed field at one index. -/
def extendAt (f : Nat → List AttributeConstraint) (idx : Nat)
    (cs : List AttributeConstraint) : Nat → List AttributeConstraint :=
  fun j => if j = idx then f j ++ cs else f j

/-- `add_section_constraint`: a targeted attribute constraint, fanned out over
`range(len(self._sections))` when no target URI is given. -/
def add_section_constraint (b : SectionSetConstraint) (attribute_name : String)
    (constraint_type : ConstraintType) (constraint_value : ℤ)
    (target_uri : Option URIRef) : Except String SectionSetConstraint := do
  let ac : AttributeConstraint := ⟨attribute_name, constraint_type, constraint_value⟩
  match target_uri with
  | none =>
      Except.ok { b with
        targeted_section_constraints :=
          (List.range b.sections.length).foldl
            (fun f j => extendAt f j [ac]) b.targeted_section_constraints }
  | some uri => do
      let idx ← dictGetE b.uri_to_index uri
      Except.ok { b with
        targeted_section_constraints :=
          extendAt b.targeted_section_constraints idx [ac] }

/-- `add_hierarchical_section_constraint`. -/
def add_hierarchical_section_constraint (b : SectionSetConstraint)
    (hierarchy : SectionConstraintHierarchy) : SectionSetConstraint :=
  { b with
    section_constraint_hierarchies := b.section_constraint_hierarchies ++ [hierarchy] }

/-- `add_section_assignment_constraint`. -/
def add_section_assignment_constraint (b : SectionSetConstraint)
    (section_a_uri section_b_uri : URIRef) (constraint_type : ConstraintType) :
    SectionSetConstraint :=
  { b with
    section_assignment_constraints := b.section_assignment_constraints ++
      [⟨constraint_type, section_a_uri, section_b_uri⟩] }

/-- `add_item_ordering_dependence_constraint`. -/
def add_item_ordering_dependence_constraint (b : SectionSetConstraint)
    (independent_uri dependent_uri : URIRef) (constraint_type : ConstraintType) :
    SectionSetConstraint :=
  { b with
    item_ordering_constraints := b.item_ordering_constraints ++
      [⟨constraint_type, independent_uri, dependent_uri⟩] }

/-- The list of `__item_count` constraints `add_section_count_constraint` builds
before distributing it: an exact count is checked first and, when present, is the
only constraint created; otherwise the optional min and max bounds are added. -/
def sectionCountConstraints (min_count max_count exact_count : Option ℤ) :
    List AttributeConstraint :=
  match exact_count with
  | some k => [⟨"__item_count", ConstraintType.EQ, k⟩]
  | none =>
      (match min_count with
        | some m => [⟨"__item_count", ConstraintType.GEQ, m⟩]
        | none => []) ++
      (match max_count with
        | some m => [⟨"__item_count", ConstraintType.LEQ, m⟩]
        | none => [])

/-- `add_section_count_constraint`: record the constraints for the targeted section,
or, with no target, for every index in `self._uri_to_index.values()`. -/
def add_section_count_constraint (b : SectionSetConstraint)
    (min_count max_count exact_count : Option ℤ) (target_uri : Option URIRef) :
    Except String SectionSetConstraint := do
  let constraints := sectionCountConstraints min_count max_count exact_count
  match target_uri with
  | some uri => do
      let idx ← dictGetE b.uri_to_index uri
      Except.ok { b with
        assignment_count_constraint :=
          extendAt b.assignment_count_constraint idx constraints }
  | none =>
      Except.ok { b with
        assignment_count_constraint :=
          (dictValues b.uri_to_index).foldl
            (fun f idx => extendAt f idx constraints) b.assignment_count_constraint }

/-- `add_required_item_assignment`: `self._required_item_assignments[item_uri] = section_uri`. -/
def add_required_item_assignment (b : SectionSetConstraint)
    (section_uri item_uri : URIRef) : SectionSetConstraint :=
  { b with
    required_item_assignments :=
      dictSet b.required_item_assignments item_uri section_uri }

end SectionSetConstraint

/-! ## Compilation: `setup_section_constraints`

The Python method mutates a `cp_model` in five phases, in source order:
per-item assignment variables and constraints (including required assignments and
`AddMaxEquality`), hierarchy enforcement booleans, per-section count and attribute
constraints, cross-section assignment constraints, and item-ordering constraints.
We embed each phase as a function producing the list of constraints it posts.
Fresh booleans from `model.NewBoolVar("")` are numbered by a threaded counter. -/

namespace SectionSetConstraint

/-- Python truthiness of a filter result inside a linear expression. -/
def boolQ (b : Bool) : ℤ := if b then 1 else 0

/-- The temporary `item_uri_to_index` dictionary filled during the per-item loop:
`item_uri_to_index[items[i].domain_object.uri] = i`. -/
def itemUriToIndex (items : List Candidate) : Dict URIRef Nat :=
  (enumerate items).foldl (fun d p => dictSet d p.2.domain_object.uri p.1) []

/-- Constraints posted for one item `i` in the first loop of
`setup_section_constraints`: for each section, `a[i,s] <= item_selection[i]` and,
unless the section allows invalid assignments, `a[i,s] <= filter_s(item)`;
then `a[i,s] == 1` for every section matching a required assignment of the item;
finally `AddMaxEquality(item_selection[i], row of a[i,s])`. -/
def requiredCstrs (b : SectionSetConstraint) (i : Nat) (it : Candidate) : List Cstr :=
  match dictGet? b.required_item_assignments it.domain_object.uri with
  | some target_section_uri =>
      (enumerate b.sections).filterMap (fun p =>
        if p.2.uri = target_section_uri then
          some (Cstr.rel ConstraintType.EQ (LinExpr.ofVar (Var.asg i p.1))
            (LinExpr.konst 1) [])
        else none)
  | none => []

def itemCstrs (b : SectionSetConstraint) (i : Nat) (it : Candidate) : List Cstr :=
  ((List.range b.sections.length).flatMap (fun s =>
      [Cstr.rel ConstraintType.LEQ (LinExpr.ofVar (Var.asg i s))
        (LinExpr.ofVar (Var.sel i)) []] ++
      (if s ∈ b.allow_invalid_assignment then [] else
        [Cstr.rel ConstraintType.LEQ (LinExpr.ofVar (Var.asg i s))
          (LinExpr.konst (boolQ (b.section_assignment_filter s it.domain_object))) []])))
  ++ requiredCstrs b i it
  ++ [Cstr.maxEq (Var.sel i)
        ((List.range b.sections.length).map (fun s => Var.asg i s))]

/-- Phase 1: the per-item loop over all items. -/
def itemAssignmentCstrs (b : SectionSetConstraint) (items : List Candidate) :
    List Cstr :=
  (enumerate items).flatMap (fun p => itemCstrs b p.1 p.2)

/-- A `sum(bools) >= bound` constraint guarded by `OnlyEnforceIf(parents)`. -/
def sumGeq (vars : List Var) (bound : ℤ) (parents : List Var) : Cstr :=
  Cstr.rel ConstraintType.GEQ ⟨vars.map (fun v => ((1 : ℤ), v)), 0⟩
    (LinExpr.konst bound) (parents.map (fun v => (v, true)))

mutual
/-- `_add_recursive_enforcement_booleans`: record `parent_bools` as enforcement
booleans of the node's section, recurse into the AND children (each with a fresh
boolean prepended to the chain) and post `sum >= count` over the fresh AND booleans,
then likewise for the OR children with `sum >= 1`. Returns the posted constraints,
the `(section index, parent_bools)` recordings, and the updated boolean counter.
An unregistered `root_uri` raises `KeyError` from `self._uri_to_index[...]`. -/
def addRecursiveEnforcementBooleans (b : SectionSetConstraint) (parent_bools : List Var)
    (cnt : Nat) : SectionConstraintHierarchy →
    Except String (List Cstr × List (Nat × List Var) × Nat)
  | .node root_uri dependency_and dependency_or => do
    let idx ← dictGetE b.uri_to_index root_uri
    let (aCstrs, aEnf, aBools, cnt1) ← enforcementBooleansForChildren b parent_bools cnt dependency_and
    let andPost := if aBools.isEmpty then [] else [sumGeq aBools aBools.length parent_bools]
    let (oCstrs, oEnf, oBools, cnt2) ← enforcementBooleansForChildren b parent_bools cnt1 dependency_or
    let orPost := if oBools.isEmpty then [] else [sumGeq oBools 1 parent_bools]
    Except.ok (aCstrs ++ andPost ++ oCstrs ++ orPost,
      (idx, parent_bools) :: (aEnf ++ oEnf), cnt2)

/-- The loop body shared by the AND and OR child lists: create one fresh boolean per
child and recurse with it prepended to the parent chain, collecting the fresh
booleans in order. -/
def enforcementBooleansForChildren (b : SectionSetConstraint) (parent_bools : List Var)
    (cnt : Nat) : List SectionConstraintHierarchy →
    Except String (List Cstr × List (Nat × List Var) × List Var × Nat)
  | [] => Except.ok ([], [], [], cnt)
  | h :: rest => do
    let newBool := Var.b cnt
    let (c1, e1, cnt1) ← addRecursiveEnforcementBooleans b (newBool :: parent_bools) (cnt + 1) h
    let (c2, e2, bools, cnt2) ← enforcementBooleansForChildren b parent_bools cnt1 rest
    Except.ok (c1 ++ c2, e1 ++ e2, newBool :: bools, cnt2)
end

/-- Phase 2: for each hierarchy root, create a top-level boolean fixed to `1` and
recurse. Returns the posted constraints, the enforcement recordings, and the counter. -/
def hierarchyCstrs (b : SectionSetConstraint) (cnt : Nat) :
    List SectionConstraintHierarchy →
    Except String (List Cstr × List (Nat × List Var) × Nat)
  | [] => Except.ok ([], [], cnt)
  | h :: rest => do
    let top := Var.b cnt
    let topFix := Cstr.rel ConstraintType.EQ (LinExpr.ofVar top) (LinExpr.konst 1) []
    let (c1, e1, cnt1) ← addRecursiveEnforcementBooleans b [top] (cnt + 1) h
    let (c2, e2, cnt2) ← hierarchyCstrs b cnt1 rest
    Except.ok (topFix :: (c1 ++ c2), e1 ++ e2, cnt2)

/-- `self._section_enforcement_bools` after phase 2: fold the recordings into the
`defaultdict(lambda: [])`, each recording extending its section's list. -/
def enforcementMap (recs : List (Nat × List Var)) : Nat → List Var :=
  recs.foldl (fun f p j => if j = p.1 then f j ++ p.2 else f j) (fun _ => [])

/-- Phase 3, count part, for one section: the posted sum is
`sum(a[i,s] * filter_s(items[i]))`, compared against the constraint value and
enforced only under the section's enforcement booleans. -/
def countCstr (b : SectionSetConstraint) (items : List Candidate) (s : Nat)
    (sbools : List Var) (ac : AttributeConstraint) : Cstr :=
  Cstr.rel ac.constraint_type
    ⟨(enumerate items).map (fun p =>
        (boolQ (b.section_assignment_filter s p.2.domain_object), Var.asg p.1 s)), 0⟩
    (LinExpr.konst ac.constraint_value)
    (sbools.map (fun v => (v, true)))

/-- Phase 3, attribute part, for one section: the posted sum is
`sum(int(round(rgetattr(item, name) * scaling)) * filter_s(item) * a[i,s])`,
compared against `int(round(value * scaling))` under the enforcement booleans. -/
def attrCstr (b : SectionSetConstraint) (items : List Candidate) (s : Nat)
    (sbools : List Var) (ac : AttributeConstraint) : Cstr :=
  Cstr.rel ac.constraint_type
    ⟨(enumerate items).map (fun p =>
        ((round (rgetattr p.2.domain_object ac.attribute_name * (b.scaling : ℚ)) : ℤ) *
          boolQ (b.section_assignment_filter s p.2.domain_object), Var.asg p.1 s)), 0⟩
    (LinExpr.konst (round ((ac.constraint_value : ℚ) * (b.scaling : ℚ))))
    (sbools.map (fun v => (v, true)))

/-- Phase 3: for each section index, the count constraints then the attribute
constraints of that section. -/
def perSectionCstrs (b : SectionSetConstraint) (items : List Candidate)
    (enf : Nat → List Var) : List Cstr :=
  (List.range b.sections.length).flatMap (fun s =>
    (b.assignment_count_constraint s).map (countCstr b items s (enf s)) ++
    (b.targeted_section_constraints s).map (attrCstr b items s (enf s)))

/-- Phase 4, one cross-section assignment constraint applied to one item. An `AM1`
constraint is skipped (`continue`) unless the item passes both sections' filters;
the check evaluates section A's filter first and only looks section B up when A's
filter accepted, mirroring Python's short-circuiting `and`. Unregistered section
URIs raise `KeyError`. -/
def sacItemCstrs (b : SectionSetConstraint) (sac : SectionAssignmentConstraint)
    (it : Candidate) (i : Nat) : Except String (List Cstr) := do
  if sac.constraint_type = ConstraintType.AM1 then
    let ia ← dictGetE b.uri_to_index sac.section_a_uri
    if b.section_assignment_filter ia it.domain_object then do
      let ib ← dictGetE b.uri_to_index sac.section_b_uri
      if b.section_assignment_filter ib it.domain_object then
        Except.ok [Cstr.rel sac.constraint_type (LinExpr.ofVar (Var.asg i ia))
          (LinExpr.ofVar (Var.asg i ib)) []]
      else Except.ok []
    else Except.ok []
  else do
    let ia ← dictGetE b.uri_to_index sac.section_a_uri
    let ib ← dictGetE b.uri_to_index sac.section_b_uri
    Except.ok [Cstr.rel sac.constraint_type (LinExpr.ofVar (Var.asg i ia))
      (LinExpr.ofVar (Var.asg i ib)) []]

/-- Phase 4, inner loop over the items for one cross-section constraint. -/
def sacCstrsOverItems (b : SectionSetConstraint) (sac : SectionAssignmentConstraint) :
    List (Nat × Candidate) → Except String (List Cstr)
  | [] => Except.ok []
  | p :: rest => do
    let c1 ← sacItemCstrs b sac p.2 p.1
    let c2 ← sacCstrsOverItems b sac rest
    Except.ok (c1 ++ c2)

/-- Phase 4: the loop over `self._section_assignment_constraints`. -/
def sectionAssignmentCstrs (b : SectionSetConstraint) (items : List Candidate) :
    List SectionAssignmentConstraint → Except String (List Cstr)
  | [] => Except.ok []
  | sac :: rest => do
    let c1 ← sacCstrsOverItems b sac (enumerate items)
    let c2 ← sectionAssignmentCstrs b items rest
    Except.ok (c1 ++ c2)

/-- The position expression of one side of an ordering constraint:
`sum(a[idx, j] * (j + 1) for j in range(section_count)) + item_selection[other] * (section_count + 2)`. -/
def orderingSide (sectionCount : Nat) (idx otherIdx : Nat) : LinExpr :=
  ⟨(List.range sectionCount).map (fun j => (((j + 1 : Nat) : ℤ), Var.asg idx j)) ++
    [(((sectionCount + 2 : Nat) : ℤ), Var.sel otherIdx)], 0⟩

/-- Phase 5, one item-ordering constraint. For a strict (`LESS`/`GRTR`) type a fresh
boolean `cond_or_zero` is created: the content constraint is enforced when it is 1,
`item_selection[b] == 1` is enforced when it is 1 and `item_selection[b] == 0` when
it is 0. Non-strict types post the content constraint directly. Unknown item URIs
raise `KeyError` from `item_uri_to_index[...]`. -/
def orderingCstr (b : SectionSetConstraint) (itemIdx : Dict URIRef Nat)
    (ioc : ItemConstraint) (cnt : Nat) : Except String (List Cstr × Nat) := do
  let ia ← dictGetE itemIdx ioc.item_a_uri
  let ib ← dictGetE itemIdx ioc.item_b_uri
  let sc := b.sections.length
  let content := fun enf =>
    Cstr.rel ioc.constraint_type (orderingSide sc ia ib) (orderingSide sc ib ia) enf
  if ioc.constraint_type = ConstraintType.LESS ∨
      ioc.constraint_type = ConstraintType.GRTR then
    let condOrZero := Var.b cnt
    Except.ok ([content [(condOrZero, true)],
      Cstr.rel ConstraintType.EQ (LinExpr.ofVar (Var.sel ib)) (LinExpr.konst 1)
        [(condOrZero, true)],
      Cstr.rel ConstraintType.EQ (LinExpr.ofVar (Var.sel ib)) (LinExpr.konst 0)
        [(condOrZero, false)]], cnt + 1)
  else
    Except.ok ([content []], cnt)

/-- Phase 5: the loop over `self._item_ordering_constraints`. -/
def itemOrderingCstrs (b : SectionSetConstraint) (itemIdx : Dict URIRef Nat)
    (cnt : Nat) : List ItemConstraint → Except String (List Cstr)
  | [] => Except.ok []
  | ioc :: rest => do
    let (c1, cnt1) ← orderingCstr b itemIdx ioc cnt
    let c2 ← itemOrderingCstrs b itemIdx cnt1 rest
    Except.ok (c1 ++ c2)

/-- `setup_section_constraints(items, item_selection, model)`: the five phases in
source order, returning every constraint posted to the model, or the first raised
`KeyError`. -/
def setup_section_constraints (b : SectionSetConstraint) (items : List Candidate) :
    Except String (List Cstr) := do
  let phase1 := itemAssignmentCstrs b items
  let (phase2, enfRecs, cnt) ← hierarchyCstrs b 0 b.section_constraint_hierarchies
  let phase3 := perSectionCstrs b items (enforcementMap enfRecs)
  let phase4 ← sectionAssignmentCstrs b items b.section_assignment_constraints
  let phase5 ← itemOrderingCstrs b (itemUriToIndex items) cnt b.item_ordering_constraints
  Except.ok (phase1 ++ phase2 ++ phase3 ++ phase4 ++ phase5)

/-- Whether a valuation is a feasible solution of the model a builder compiles to:
the compilation succeeds and every posted constraint is satisfied. -/
def feasible (b : SectionSetConstraint) (items : List Candidate) (σ : Var → ℤ) : Bool :=
  match setup_section_constraints b items with
  | Except.ok cs => cs.all (Cstr.sat σ)
  | Except.error _ => false

end SectionSetConstraint

/-! ## Bookkeeping view of the hierarchy recursion

To state properties about "a node of a hierarchy and its chain of enforcement
booleans", we recompute — with exactly the boolean-counter discipline of
`addRecursiveEnforcementBooleans` — which booleans each node's chain, AND children
and OR children receive. This is a specification-side mirror used only in theorem
statements; the compiled constraints themselves come from the functions above. -/

/-- What one hierarchy node looks like to the enforcement machinery: the chain of
booleans enforcing it, the fresh booleans of its AND children, and of its OR
children. -/
structure HierNode where
  chain : List Var
  andBools : List Var
  orBools : List Var
deriving DecidableEq, Repr

mutual
/-- The nodes of one hierarchy, with the chain and child booleans assigned by the
recursion when started with chain `parent_bools` and boolean counter `cnt`. -/
def hierNodes (parent_bools : List Var) (cnt : Nat) :
    SectionConstraintHierarchy → List HierNode × Nat
  | .node _ dependency_and dependency_or =>
    let (aNodes, aBools, cnt1) := hierNodesChildren parent_bools cnt dependency_and
    let (oNodes, oBools, cnt2) := hierNodesChildren parent_bools cnt1 dependency_or
    (⟨parent_bools, aBools, oBools⟩ :: (aNodes ++ oNodes), cnt2)

/-- The nodes contributed by a child list, with the fresh boolean of each child. -/
def hierNodesChildren (parent_bools : List Var) (cnt : Nat) :
    List SectionConstraintHierarchy → List HierNode × List Var × Nat
  | [] => ([], [], cnt)
  | h :: rest =>
    let newBool := Var.b cnt
    let (n1, cnt1) := hierNodes (newBool :: parent_bools) (cnt + 1) h
    let (n2, bools, cnt2) := hierNodesChildren parent_bools cnt1 rest
    (n1 ++ n2, newBool :: bools, cnt2)
end

/-- The top-level booleans (one per hierarchy root, each fixed to 1 by the
compilation) and all hierarchy nodes, over a list of hierarchy roots. -/
def hierForest (cnt : Nat) :
    List SectionConstraintHierarchy → List Var × List HierNode × Nat
  | [] => ([], [], cnt)
  | h :: rest =>
    let top := Var.b cnt
    let (n1, cnt1) := hierNodes [top] (cnt + 1) h
    let (tops, n2, cnt2) := hierForest cnt1 rest
    (top :: tops, n1 ++ n2, cnt2)

/-! ## The candidate ranker

`CandidateRanker.execute` materialises the incoming candidate generator and yields
`sorted(all_candidates, key=lambda c: c.total_score, reverse=True)`. Python's sort
is stable, and `reverse=True` sorts as if each comparison were reversed, so the
result is the stable sort placing a candidate before another exactly when the
other's total score is at most its own. -/

/-- The order `sorted(..., key=lambda c: c.total_score, reverse=True)` sorts by. -/
def rankerLE (a c : Candidate) : Prop := c.total_score ≤ a.total_score

instance : DecidableRel rankerLE := fun a c =>
  inferInstanceAs (Decidable (c.total_score ≤ a.total_score))

/-- `CandidateRanker.execute`, as the list transformation it performs. -/
def CandidateRanker.execute (candidates : List Candidate) : List Candidate :=
  candidates.insertionSort rankerLE

instance : IsTotal Candidate rankerLE :=
  ⟨fun a c => le_total c.total_score a.total_score⟩

instance : IsTrans Candidate rankerLE :=
  ⟨fun _ _ _ h1 h2 => le_trans h2 h1⟩

/-! ## Basic lemmas about the semantic toolkit -/

@[simp] theorem LinExpr.eval_ofVar (σ : Var → ℤ) (v : Var) :
    (LinExpr.ofVar v).eval σ = σ v := by
  simp [LinExpr.eval, LinExpr.ofVar]

@[simp] theorem LinExpr.eval_konst (σ : Var → ℤ) (q : ℤ) :
    (LinExpr.konst q).eval σ = q := by
  simp [LinExpr.eval, LinExpr.konst]

theorem SatAll.of_mem {σ : Var → ℤ} {cs : List Cstr} (h : SatAll σ cs) {c : Cstr}
    (hc : c ∈ cs) : Cstr.sat σ c = true := by
  simpa using (List.all_eq_true.mp h) c hc

theorem sat_rel_true {σ : Var → ℤ} {t : ConstraintType} {lhs rhs : LinExpr}
    {enf : List Lit} (h : Cstr.sat σ (Cstr.rel t lhs rhs enf) = true)
    (henf : ∀ l ∈ enf, σ l.1 = Lit.target l) :
    t.holds (lhs.eval σ) (rhs.eval σ) = true := by
  rw [Cstr.sat, if_pos] at h
  · exact h
  · exact List.all_eq_true.mpr (fun l hl => beq_iff_eq.mpr (henf l hl))

theorem sat_maxEq_true {σ : Var → ℤ} {v : Var} {vs : List Var}
    (h : Cstr.sat σ (Cstr.maxEq v vs) = true) : σ v = listMax (vs.map σ) := by
  rw [Cstr.sat] at h
  exact beq_iff_eq.mp h

theorem holds_EQ {x y : ℤ} : (ConstraintType.EQ.holds x y = true) ↔ x = y := by
  simp [ConstraintType.holds]

theorem holds_LEQ {x y : ℤ} : (ConstraintType.LEQ.holds x y = true) ↔ x ≤ y := by
  simp [ConstraintType.holds]

theorem holds_GEQ {x y : ℤ} : (ConstraintType.GEQ.holds x y = true) ↔ y ≤ x := by
  simp [ConstraintType.holds]

theorem holds_LESS {x y : ℤ} : (ConstraintType.LESS.holds x y = true) ↔ x < y := by
  simp [ConstraintType.holds]

theorem le_listMax {l : List ℤ} {x : ℤ} (hx : x ∈ l) : x ≤ listMax l := by
  induction l with
  | nil => cases hx
  | cons a l ih =>
      rcases List.mem_cons.mp hx with rfl | h
      · exact le_max_left _ _
      · exact le_trans (ih h) (le_max_right _ _)

theorem listMax_eq_zero_or_mem (l : List ℤ) : listMax l = 0 ∨ listMax l ∈ l := by
  induction l with
  | nil => exact Or.inl rfl
  | cons a l ih =>
      have hc : listMax (a :: l) = max a (listMax l) := rfl
      rw [hc]
      rcases max_choice a (listMax l) with h | h
      · rw [h]; exact Or.inr (List.mem_cons_self _ _)
      · rw [h]
        rcases ih with h0 | hm
        · exact Or.inl h0
        · exact Or.inr (List.mem_cons_of_mem _ hm)

theorem mem_enumerate_iff {l : List α} {p : Nat × α} :
    p ∈ enumerate l ↔ ∃ h : p.1 < l.length, l.get ⟨p.1, h⟩ = p.2 := by
  obtain ⟨i, x⟩ := p
  rw [enumerate, List.mem_iff_getElem]
  constructor
  · rintro ⟨k, hk, hkeq⟩
    have hkl : k < l.length := by simpa [List.length_zip] using hk
    rw [List.getElem_zip] at hkeq
    have h1 : k = i := by
      simpa [List.getElem_range] using congrArg Prod.fst hkeq
    subst h1
    have h2 : l[k] = x := by simpa using congrArg Prod.snd hkeq
    exact ⟨hkl, by simpa [List.get_eq_getElem] using h2⟩
  · rintro ⟨h, hget⟩
    refine ⟨i, by simpa [List.length_zip] using h, ?_⟩
    rw [List.getElem_zip]
    simp only [List.getElem_range]
    rw [Prod.mk.injEq]
    exact ⟨rfl, by simpa [List.get_eq_getElem] using hget⟩

theorem enumerate_mem_of_get {l : List α} {i : Nat} (h : i < l.length) :
    (i, l.get ⟨i, h⟩) ∈ enumerate l :=
  mem_enumerate_iff.mpr ⟨h, rfl⟩

/-! ## Decomposing a successful compilation -/

namespace SectionSetConstraint

theorem exceptBind_ok {ε α β : Type} (a : α) (f : α → Except ε β) :
    (Except.ok a >>= f : Except ε β) = f a := rfl

theorem exceptBind_error {ε α β : Type} (e : ε) (f : α → Except ε β) :
    ((Except.error e : Except ε α) >>= f : Except ε β) = Except.error e := rfl

theorem setup_ok_decomp {b : SectionSetConstraint} {items : List Candidate}
    {cs : List Cstr} (hok : b.setup_section_constraints items = Except.ok cs) :
    ∃ p2 recs cnt p4 p5,
      hierarchyCstrs b 0 b.section_constraint_hierarchies = Except.ok (p2, recs, cnt) ∧
      sectionAssignmentCstrs b items b.section_assignment_constraints = Except.ok p4 ∧
      itemOrderingCstrs b (itemUriToIndex items) cnt b.item_ordering_constraints =
        Except.ok p5 ∧
      cs = itemAssignmentCstrs b items ++ p2 ++
        perSectionCstrs b items (enforcementMap recs) ++ p4 ++ p5 := by
  rw [setup_section_constraints] at hok
  rcases h2 : hierarchyCstrs b 0 b.section_constraint_hierarchies with e2 | v2
  · rw [h2, exceptBind_error] at hok; cases hok
  · obtain ⟨p2, recs, cnt⟩ := v2
    rw [h2, exceptBind_ok] at hok
    dsimp only at hok
    rcases h4 : sectionAssignmentCstrs b items b.section_assignment_constraints with
      e4 | p4
    · rw [h4, exceptBind_error] at hok; cases hok
    · rw [h4, exceptBind_ok] at hok
      rcases h5 : itemOrderingCstrs b (itemUriToIndex items) cnt
          b.item_ordering_constraints with e5 | p5
      · rw [h5, exceptBind_error] at hok; cases hok
      · rw [h5, exceptBind_ok] at hok
        injection hok with h
        exact ⟨p2, recs, cnt, p4, p5, rfl, rfl, h5, h.symm⟩

theorem feasible_decomp {b : SectionSetConstraint} {items : List Candidate}
    {σ : Var → ℤ} (h : feasible b items σ = true) :
    ∃ cs, b.setup_section_constraints items = Except.ok cs ∧ SatAll σ cs := by
  rw [feasible] at h
  rcases hok : b.setup_section_constraints items with e | cs
  · rw [hok] at h; cases h
  · rw [hok] at h; exact ⟨cs, rfl, h⟩

theorem phase1_sub {b : SectionSetConstraint} {items : List Candidate} {cs : List Cstr}
    (hok : b.setup_section_constraints items = Except.ok cs) :
    ∀ c ∈ itemAssignmentCstrs b items, c ∈ cs := by
  obtain ⟨p2, recs, cnt, p4, p5, _, _, _, hcs⟩ := setup_ok_decomp hok
  intro c hc
  rw [hcs]
  exact List.mem_append_left _ (List.mem_append_left _ (List.mem_append_left _
    (List.mem_append_left _ hc)))

theorem itemCstrs_sub_phase1 {b : SectionSetConstraint} {items : List Candidate}
    {i : Nat} (hi : i < items.length) :
    ∀ c ∈ itemCstrs b i (items.get ⟨i, hi⟩), c ∈ itemAssignmentCstrs b items := by
  intro c hc
  rw [itemAssignmentCstrs, List.mem_flatMap]
  exact ⟨(i, items.get ⟨i, hi⟩), enumerate_mem_of_get hi, hc⟩

theorem asg_le_sel_mem_itemCstrs {b : SectionSetConstraint} {i s : Nat}
    {it : Candidate} (hs : s < b.sections.length) :
    Cstr.rel ConstraintType.LEQ (LinExpr.ofVar (Var.asg i s))
      (LinExpr.ofVar (Var.sel i)) [] ∈ itemCstrs b i it := by
  rw [itemCstrs]
  apply List.mem_append_left
  apply List.mem_append_left
  rw [List.mem_flatMap]
  exact ⟨s, List.mem_range.mpr hs, List.mem_append_left _ (List.mem_singleton.mpr rfl)⟩

theorem maxEq_mem_itemCstrs (b : SectionSetConstraint) (i : Nat) (it : Candidate) :
    Cstr.maxEq (Var.sel i)
      ((List.range b.sections.length).map (fun s => Var.asg i s)) ∈
      itemCstrs b i it := by
  rw [itemCstrs]
  apply List.mem_append_right
  exact List.mem_singleton.mpr rfl

theorem required_mem_itemCstrs {b : SectionSetConstraint} {i sIdx : Nat}
    {it : Candidate} {target : URIRef} {sec : DomainObject}
    (hreq : dictGet? b.required_item_assignments it.domain_object.uri = some target)
    (hsec : b.sections.get? sIdx = some sec) (huri : sec.uri = target) :
    Cstr.rel ConstraintType.EQ (LinExpr.ofVar (Var.asg i sIdx))
      (LinExpr.konst 1) [] ∈ itemCstrs b i it := by
  obtain ⟨hsIdx, hget⟩ := List.get?_eq_some.mp hsec
  rw [itemCstrs]
  apply List.mem_append_left
  apply List.mem_append_right
  rw [requiredCstrs, hreq, List.mem_filterMap]
  refine ⟨(sIdx, b.sections.get ⟨sIdx, hsIdx⟩), enumerate_mem_of_get hsIdx, ?_⟩
  rw [if_pos (by rw [hget, huri])]

end SectionSetConstraint

open SectionSetConstraint

/-! ## Concrete instances used by witnesses and counterexamples -/

/-- A domain object with no attributes, identified by its URI. -/
def exDomain (u : Nat) : DomainObject := ⟨u, fun _ => 0⟩

/-- A candidate wrapping `exDomain u` with empty trails. -/
def exCand (u : Nat) : Candidate := ⟨exDomain u, [], []⟩

/-- One section (URI 10), no further constraints. -/
def exB1 : SectionSetConstraint := (SectionSetConstraint.init 1).set_sections [exDomain 10]

/-- One candidate item (URI 20). -/
def exItems1 : List Candidate := [exCand 20]

/-- The all-ones valuation. -/
def exSigOnes : Var → ℤ := fun _ => 1

/-! ## Claim C1 -/

/-- The per-item facts the first compilation loop guarantees in any feasible
solution: assignment implies selection, and the selection indicator is the maximum
of the item's assignment row. Shared by several claims. -/
theorem feasible_selection_coverage
    (b : SectionSetConstraint) (items : List Candidate) (σ : Var → ℤ)
    (hfeas : feasible b items σ = true) (h01 : ZeroOne σ)
    (i : Nat) (hi : i < items.length) :
    (∀ s, s < b.sections.length → σ (Var.asg i s) ≤ σ (Var.sel i)) ∧
    (σ (Var.sel i) = listMax
      (((List.range b.sections.length).map (fun s => Var.asg i s)).map σ)) ∧
    (σ (Var.sel i) = 1 ↔ ∃ s, s < b.sections.length ∧ σ (Var.asg i s) = 1) := by
  obtain ⟨cs, hok, hsat⟩ := feasible_decomp hfeas
  have hsub : ∀ c ∈ itemCstrs b i (items.get ⟨i, hi⟩), c ∈ cs :=
    fun c hc => phase1_sub hok c (itemCstrs_sub_phase1 hi c hc)
  have hle : ∀ s, s < b.sections.length → σ (Var.asg i s) ≤ σ (Var.sel i) := by
    intro s hs
    have hmem := hsub _ (asg_le_sel_mem_itemCstrs hs)
    have hh := sat_rel_true (hsat.of_mem hmem) (by intro l hl; cases hl)
    rw [LinExpr.eval_ofVar, LinExpr.eval_ofVar] at hh
    exact holds_LEQ.mp hh
  have hmax := sat_maxEq_true (hsat.of_mem (hsub _ (maxEq_mem_itemCstrs b i _)))
  refine ⟨hle, hmax, ?_, ?_⟩
  · intro h1
    have heq : listMax (((List.range b.sections.length).map
        (fun s => Var.asg i s)).map σ) = 1 := hmax.symm.trans h1
    rcases listMax_eq_zero_or_mem (((List.range b.sections.length).map
        (fun s => Var.asg i s)).map σ) with h0 | hm
    · exact absurd (heq.symm.trans h0) one_ne_zero
    · rw [heq] at hm
      rw [List.map_map] at hm
      obtain ⟨s, hs, hval⟩ := List.mem_map.mp hm
      exact ⟨s, List.mem_range.mp hs, hval⟩
  · rintro ⟨s, hs, hval⟩
    have hmm : σ (Var.asg i s) ∈ ((List.range b.sections.length).map
        (fun s => Var.asg i s)).map σ := by
      rw [List.map_map]
      exact List.mem_map.mpr ⟨s, List.mem_range.mpr hs, rfl⟩
    have h1le : (1 : ℤ) ≤ σ (Var.sel i) := by
      rw [← hval, hmax]
      exact le_listMax hmm
    rcases h01 (Var.sel i) with h0 | h1
    · rw [h0] at h1le; linarith
    · exact h1

/-- Claim C1: in every feasible solution of the compiled model, for each candidate
item `i`, `a[i,s] <= item_selection[i]` for every section `s`, and
`item_selection[i]` equals the maximum over `s` of `a[i,s]`, so
`item_selection[i] = 1` exactly when `a[i,s] = 1` for at least one section `s`. -/
theorem claim_C1_assignment_implies_selection_and_coverage
    (b : SectionSetConstraint) (items : List Candidate) (σ : Var → ℤ)
    (hfeas : feasible b items σ = true) (h01 : ZeroOne σ)
    (i : Nat) (hi : i < items.length) :
    (∀ s, s < b.sections.length → σ (Var.asg i s) ≤ σ (Var.sel i)) ∧
    (σ (Var.sel i) = listMax
      (((List.range b.sections.length).map (fun s => Var.asg i s)).map σ)) ∧
    (σ (Var.sel i) = 1 ↔ ∃ s, s < b.sections.length ∧ σ (Var.asg i s) = 1) :=
  feasible_selection_coverage b items σ hfeas h01 i hi

/-! ## Claim C9: the candidate ranker -/

/-- Candidates with a total score other than `q` do not occur in the part of a list
that `orderedInsert` walks past, so inserting a candidate commutes with filtering
by any fixed total score. -/
theorem filter_orderedInsert_rankerLE (c : Candidate) (q : ℚ) (l : List Candidate) :
    (l.orderedInsert rankerLE c).filter (fun d => decide (d.total_score = q)) =
      if c.total_score = q then
        c :: l.filter (fun d => decide (d.total_score = q))
      else l.filter (fun d => decide (d.total_score = q)) := by
  induction l with
  | nil =>
      rw [List.orderedInsert]
      by_cases hcq : c.total_score = q
      · rw [if_pos hcq]; simp [hcq]
      · rw [if_neg hcq]; simp [hcq]
  | cons d rest ih =>
      rw [List.orderedInsert]
      by_cases hcd : rankerLE c d
      · rw [if_pos hcd]
        by_cases hcq : c.total_score = q
        · rw [if_pos hcq]; simp [hcq]
        · rw [if_neg hcq]; simp [hcq]
      · rw [if_neg hcd]
        have hdq : d.total_score ≠ q ∨ c.total_score ≠ q := by
          by_cases hcq : c.total_score = q
          · left
            intro hdq
            exact hcd (le_of_eq (hdq.trans hcq.symm))
          · right; exact hcq
        simp only [List.filter_cons]
        rw [ih]
        by_cases hcq : c.total_score = q
        · rw [if_pos hcq, if_pos hcq]
          rcases hdq with hdq | hdq
          · simp [hdq]
          · exact absurd hcq hdq
        · rw [if_neg hcq, if_neg hcq]

/-- Claim C9: the ranker emits exactly the input candidates in non-increasing
`total_score` order, it is stable (for every score value, the candidates carrying it
appear in their input order), and applying it twice equals applying it once. -/
theorem claim_C9_ranker_sorts_stably_and_idempotently (l : List Candidate) :
    List.Perm (CandidateRanker.execute l) l ∧
    List.Sorted rankerLE (CandidateRanker.execute l) ∧
    (∀ q : ℚ, (CandidateRanker.execute l).filter (fun c => decide (c.total_score = q)) =
      l.filter (fun c => decide (c.total_score = q))) ∧
    CandidateRanker.execute (CandidateRanker.execute l) = CandidateRanker.execute l := by
  refine ⟨List.perm_insertionSort rankerLE l, List.sorted_insertionSort rankerLE l,
    ?_, List.Sorted.insertionSort_eq (List.sorted_insertionSort rankerLE l)⟩
  intro q
  induction l with
  | nil => rfl
  | cons c rest ih =>
      simp only [CandidateRanker.execute, List.insertionSort] at ih ⊢
      rw [filter_orderedInsert_rankerLE, List.filter_cons]
      by_cases hcq : c.total_score = q
      · rw [if_pos hcq, ih]
        simp [hcq]
      · rw [if_neg hcq, ih]
        simp [hcq]

/-! ## Dictionary update lemmas and claim C10 -/

theorem dictGet?_cons [DecidableEq κ] (p : κ × ν) (rest : Dict κ ν) (k2 : κ) :
    dictGet? (p :: rest) k2 = if p.1 = k2 then some p.2 else dictGet? rest k2 := by
  rw [dictGet?, dictGet?]
  by_cases hp : p.1 = k2
  · rw [List.find?_cons_of_pos _ (by simpa using hp), if_pos hp]
    rfl
  · rw [List.find?_cons_of_neg _ (by simpa using hp), if_neg hp]

theorem dictGet?_map_update_ne [DecidableEq κ] (d : Dict κ ν) (k : κ) (v : ν)
    {k2 : κ} (h : k2 ≠ k) :
    dictGet? (d.map (fun p => if p.1 = k then (k, v) else p)) k2 = dictGet? d k2 := by
  induction d with
  | nil => rfl
  | cons p rest ih =>
      by_cases hp : p.1 = k
      · rw [List.map_cons, if_pos hp, dictGet?_cons, dictGet?_cons]
        have hne : ¬ ((k, v).1 = k2) := fun hh => h hh.symm
        have hne2 : ¬ (p.1 = k2) := fun hh => h ((hp ▸ hh : k = k2)).symm
        rw [if_neg hne, if_neg hne2]
        exact ih
      · rw [List.map_cons, if_neg hp, dictGet?_cons, dictGet?_cons]
        by_cases hk2 : p.1 = k2
        · rw [if_pos hk2, if_pos hk2]
        · rw [if_neg hk2, if_neg hk2]
          exact ih

theorem dictGet?_append_single_ne [DecidableEq κ] (d : Dict κ ν) (k : κ) (v : ν)
    {k2 : κ} (h : k2 ≠ k) :
    dictGet? (d ++ [(k, v)]) k2 = dictGet? d k2 := by
  induction d with
  | nil =>
      rw [List.nil_append, dictGet?_cons]
      have hne : ¬ ((k, v).1 = k2) := fun hh => h hh.symm
      rw [if_neg hne]
  | cons p rest ih =>
      rw [List.cons_append, dictGet?_cons, dictGet?_cons]
      by_cases hk2 : p.1 = k2
      · rw [if_pos hk2, if_pos hk2]
      · rw [if_neg hk2, if_neg hk2]
        exact ih

theorem dictGet?_dictSet_ne [DecidableEq κ] (d : Dict κ ν) (k : κ) (v : ν)
    {k2 : κ} (h : k2 ≠ k) :
    dictGet? (dictSet d k v) k2 = dictGet? d k2 := by
  rw [dictSet]
  by_cases hany : d.any (fun p => p.1 = k)
  · rw [if_pos hany]
    exact dictGet?_map_update_ne d k v h
  · rw [if_neg hany]
    exact dictGet?_append_single_ne d k v h

theorem dictGet?_foldl_dictSet_ne (ps : List (Nat × DomainObject))
    (d : Dict URIRef Nat) {uri : URIRef} (h : ∀ p ∈ ps, p.2.uri ≠ uri) :
    dictGet? (ps.foldl (fun d p => dictSet d p.2.uri p.1) d) uri = dictGet? d uri := by
  induction ps generalizing d with
  | nil => rfl
  | cons p rest ih =>
      rw [List.foldl_cons]
      rw [ih _ (fun q hq => h q (List.mem_cons_of_mem _ hq))]
      exact dictGet?_dictSet_ne d p.2.uri p.1
        (fun hh => h p (List.mem_cons_self _ _) hh.symm)

theorem mem_of_mem_enumerate {l : List α} {p : Nat × α} (hp : p ∈ enumerate l) :
    p.2 ∈ l := by
  obtain ⟨h, hget⟩ := mem_enumerate_iff.mp hp
  exact hget ▸ List.get_mem _ _ _

theorem mem_dictValues_of_get [DecidableEq κ] {d : Dict κ ν} {k : κ} {v : ν}
    (h : dictGet? d k = some v) : v ∈ dictValues d := by
  rw [dictGet?] at h
  rcases hf : d.find? (fun p => p.1 = k) with _ | p
  · rw [hf] at h; cases h
  · rw [hf] at h
    have hp : p ∈ d := List.mem_of_find?_eq_some hf
    have : p.2 = v := by injection h
    rw [dictValues]
    exact this ▸ List.mem_map.mpr ⟨p, hp, rfl⟩

theorem extendAt_foldl_mono {vals : List Nat} {f : Nat → List AttributeConstraint}
    {idx : Nat} {ac : AttributeConstraint} {cs : List AttributeConstraint}
    (h : ac ∈ f idx) :
    ac ∈ (vals.foldl (fun f j => SectionSetConstraint.extendAt f j cs) f) idx := by
  induction vals generalizing f with
  | nil => exact h
  | cons v rest ih =>
      rw [List.foldl_cons]
      apply ih
      rw [SectionSetConstraint.extendAt]
      by_cases hv : idx = v
      · rw [if_pos hv]; exact List.mem_append_left _ h
      · rw [if_neg hv]; exact h

theorem extendAt_foldl_mem {vals : List Nat} {f : Nat → List AttributeConstraint}
    {idx : Nat} {ac : AttributeConstraint} {cs : List AttributeConstraint}
    (hidx : idx ∈ vals) (hac : ac ∈ cs) :
    ac ∈ (vals.foldl (fun f j => SectionSetConstraint.extendAt f j cs) f) idx := by
  induction vals generalizing f with
  | nil => cases hidx
  | cons v rest ih =>
      rw [List.foldl_cons]
      rcases List.mem_cons.mp hidx with rfl | hmem
      · apply extendAt_foldl_mono
        rw [SectionSetConstraint.extendAt, if_pos rfl]
        exact List.mem_append_right _ hac
      · exact ih hmem

theorem dictGet?_dictSet_self [DecidableEq κ] (d : Dict κ ν) (k : κ) (v : ν) :
    dictGet? (dictSet d k v) k = some v := by
  rw [dictSet]
  by_cases hany : d.any (fun p => p.1 = k)
  · rw [if_pos hany]
    obtain ⟨p, hp, hpk⟩ := List.any_eq_true.mp hany
    have hpk' : p.1 = k := of_decide_eq_true hpk
    clear hany hpk
    induction d with
    | nil => cases hp
    | cons q rest ih =>
        rw [List.map_cons, dictGet?_cons]
        by_cases hq : q.1 = k
        · rw [if_pos hq]
          simp
        · rw [if_neg hq]
          rw [if_neg hq]
          rcases List.mem_cons.mp hp with rfl | hmem
          · exact absurd hpk' hq
          · exact ih hmem
  · rw [if_neg hany]
    induction d with
    | nil => rw [List.nil_append, dictGet?_cons, if_pos rfl]
    | cons q rest ih =>
        rw [List.cons_append, dictGet?_cons]
        have hq : ¬ (q.1 = k) := by
          intro hq
          exact hany (List.any_eq_true.mpr ⟨q, List.mem_cons_self _ _, decide_eq_true hq⟩)
        rw [if_neg hq]
        exact ih (fun hny => hany (by
          obtain ⟨p, hp, hpk⟩ := List.any_eq_true.mp hny
          exact List.any_eq_true.mpr ⟨p, List.mem_cons_of_mem _ hp, hpk⟩))

theorem dictGet?_dictSet_isSome [DecidableEq κ] (d : Dict κ ν) (k k2 : κ) (v : ν)
    {v0 : ν} (h : dictGet? d k2 = some v0) :
    ∃ v1, dictGet? (dictSet d k v) k2 = some v1 := by
  by_cases hk : k2 = k
  · subst hk
    exact ⟨v, dictGet?_dictSet_self d k2 v⟩
  · exact ⟨v0, (dictGet?_dictSet_ne d k v hk).trans h⟩

theorem dictGet?_foldl_dictSet_isSome (ps : List (Nat × DomainObject))
    (d : Dict URIRef Nat) (uri : URIRef) {idx : Nat}
    (h : dictGet? d uri = some idx) :
    ∃ idx1, dictGet? (ps.foldl (fun d p => dictSet d p.2.uri p.1) d) uri =
      some idx1 := by
  induction ps generalizing d idx with
  | nil => exact ⟨idx, h⟩
  | cons p rest ih =>
      rw [List.foldl_cons]
      obtain ⟨v1, hv1⟩ := dictGet?_dictSet_isSome d p.2.uri uri p.1 h
      exact ih _ hv1

/-- Claim C10: `set_sections` never removes entries from `_uri_to_index` — every
URI registered before a second `set_sections` call is still a key afterwards.
After a second call whose sections reuse none of the old URIs, a URI of the
first call still maps to its old index, that stale index is still among the dict's
values, and a fanned-out `add_section_count_constraint` (no target URI) records its
constraint for the stale index as well. -/
theorem claim_C10_set_sections_keeps_stale_uri_entries
    (b1 : SectionSetConstraint) (secs2 : List DomainObject) (uri : URIRef) (idx : Nat)
    (hlookup : dictGet? b1.uri_to_index uri = some idx)
    (hfresh : ∀ sec ∈ secs2, sec.uri ≠ uri) :
    (∀ (uri0 : URIRef) (idx0 : Nat), dictGet? b1.uri_to_index uri0 = some idx0 →
      ∃ idx1, dictGet? (b1.set_sections secs2).uri_to_index uri0 = some idx1) ∧
    dictGet? (b1.set_sections secs2).uri_to_index uri = some idx ∧
    idx ∈ dictValues (b1.set_sections secs2).uri_to_index ∧
    (∀ (mn mx : Option ℤ) (k : ℤ) (b3 : SectionSetConstraint),
      (b1.set_sections secs2).add_section_count_constraint mn mx (some k) none =
        Except.ok b3 →
      AttributeConstraint.mk "__item_count" ConstraintType.EQ k ∈
        b3.assignment_count_constraint idx) := by
  have hkeep : dictGet? (b1.set_sections secs2).uri_to_index uri = some idx := by
    rw [SectionSetConstraint.set_sections]
    rw [dictGet?_foldl_dictSet_ne _ _
      (fun p hp => hfresh p.2 (mem_of_mem_enumerate hp))]
    exact hlookup
  refine ⟨?_, hkeep, mem_dictValues_of_get hkeep, ?_⟩
  · intro uri0 idx0 h0
    rw [SectionSetConstraint.set_sections]
    exact dictGet?_foldl_dictSet_isSome _ _ _ h0
  intro mn mx k b3 hadd
  rw [SectionSetConstraint.add_section_count_constraint] at hadd
  injection hadd with hb3
  rw [← hb3]
  exact extendAt_foldl_mem (mem_dictValues_of_get hkeep) (List.mem_singleton.mpr rfl)

/-- Witness for C10: register section 10, re-register with section 11, then fan a
count constraint out; URI 10 still maps to index 0 and index 0 receives the
constraint. -/
theorem claim_C10_witness :
    (∀ (uri0 : URIRef) (idx0 : Nat),
      dictGet? ((SectionSetConstraint.init 1).set_sections
        [exDomain 10]).uri_to_index uri0 = some idx0 →
      ∃ idx1, dictGet? (((SectionSetConstraint.init 1).set_sections
        [exDomain 10]).set_sections [exDomain 11]).uri_to_index uri0 = some idx1) ∧
    dictGet? (((SectionSetConstraint.init 1).set_sections [exDomain 10]).set_sections
      [exDomain 11]).uri_to_index 10 = some 0 ∧
    0 ∈ dictValues (((SectionSetConstraint.init 1).set_sections
      [exDomain 10]).set_sections [exDomain 11]).uri_to_index ∧
    (∀ (mn mx : Option ℤ) (k : ℤ) (b3 : SectionSetConstraint),
      (((SectionSetConstraint.init 1).set_sections [exDomain 10]).set_sections
        [exDomain 11]).add_section_count_constraint mn mx (some k) none =
        Except.ok b3 →
      AttributeConstraint.mk "__item_count" ConstraintType.EQ k ∈
        b3.assignment_count_constraint 0) :=
  claim_C10_set_sections_keeps_stale_uri_entries
    ((SectionSetConstraint.init 1).set_sections [exDomain 10]) [exDomain 11] 10 0
    (by decide) (by decide)

/-! ## Claim C5: required item assignments -/

/-- One section (URI 10) and a required assignment of item 20 to it. -/
def exB5 : SectionSetConstraint :=
  ((SectionSetConstraint.init 1).set_sections [exDomain 10]).add_required_item_assignment 10 20

/-- Counterexample to claim C5 as stated: with one section (URI 10), one candidate
item (URI 20) and `add_required_item_assignment(10, 20)`, no feasible solution of the
compiled model leaves the item unselected — the required assignment is posted
unconditionally, not conditionally on selection. -/
theorem claim_C5_counterexample :
    ¬ ∃ σ : Var → ℤ, ZeroOne σ ∧ feasible exB5 exItems1 σ = true ∧
      σ (Var.sel 0) = 0 := by
  rintro ⟨σ, h01, hfeas, hsel⟩
  obtain ⟨cs, hok, hsat⟩ := feasible_decomp hfeas
  have hreq : dictGet? exB5.required_item_assignments
      (exItems1.get ⟨0, by decide⟩).domain_object.uri = some 10 := by decide
  have hi : (0 : Nat) < exItems1.length := by decide
  have hs : (0 : Nat) < exB5.sections.length := by decide
  have hsec5 : exB5.sections.get? 0 = some (exDomain 10) := rfl
  have hmem := phase1_sub hok _ (itemCstrs_sub_phase1 hi _
    (required_mem_itemCstrs hreq hsec5 rfl))
  have h1 := sat_rel_true (hsat.of_mem hmem) (fun l hl => absurd hl (List.not_mem_nil l))
  rw [LinExpr.eval_ofVar, LinExpr.eval_konst] at h1
  have hasg : σ (Var.asg 0 0) = 1 := holds_EQ.mp h1
  have hmem2 := phase1_sub hok _ (itemCstrs_sub_phase1 hi _
    (asg_le_sel_mem_itemCstrs hs))
  have h2 := sat_rel_true (hsat.of_mem hmem2) (fun l hl => absurd hl (List.not_mem_nil l))
  rw [LinExpr.eval_ofVar, LinExpr.eval_ofVar] at h2
  have hle := holds_LEQ.mp h2
  rw [hasg, hsel] at hle
  exact absurd hle (by norm_num)

/-- Claim C5, amended: `add_required_item_assignment` constrains the item
unconditionally — in every feasible solution of the compiled model the item is
assigned to the required section (when that section is registered) and is therefore
selected; a solution leaving the item unselected is infeasible. -/
theorem claim_C5_amended_required_assignment_unconditional
    (b : SectionSetConstraint) (items : List Candidate) (σ : Var → ℤ)
    (hfeas : feasible b items σ = true) (h01 : ZeroOne σ)
    (i : Nat) (hi : i < items.length) (target : URIRef)
    (hreq : dictGet? b.required_item_assignments
      (items.get ⟨i, hi⟩).domain_object.uri = some target)
    (sIdx : Nat) (sec : DomainObject) (hsec : b.sections.get? sIdx = some sec)
    (huri : sec.uri = target) :
    σ (Var.asg i sIdx) = 1 ∧ σ (Var.sel i) = 1 := by
  obtain ⟨cs, hok, hsat⟩ := feasible_decomp hfeas
  have hsIdx : sIdx < b.sections.length := (List.get?_eq_some.mp hsec).1
  have hmem := phase1_sub hok _ (itemCstrs_sub_phase1 hi _
    (required_mem_itemCstrs hreq hsec huri))
  have h1 := sat_rel_true (hsat.of_mem hmem) (fun l hl => absurd hl (List.not_mem_nil l))
  rw [LinExpr.eval_ofVar, LinExpr.eval_konst] at h1
  have hasg : σ (Var.asg i sIdx) = 1 := holds_EQ.mp h1
  have hmem2 := phase1_sub hok _ (itemCstrs_sub_phase1 hi _
    (asg_le_sel_mem_itemCstrs hsIdx))
  have h2 := sat_rel_true (hsat.of_mem hmem2) (fun l hl => absurd hl (List.not_mem_nil l))
  rw [LinExpr.eval_ofVar, LinExpr.eval_ofVar] at h2
  have hle := holds_LEQ.mp h2
  rw [hasg] at hle
  refine ⟨hasg, ?_⟩
  rcases h01 (Var.sel i) with h0 | h1'
  · rw [h0] at hle; exact absurd hle (by norm_num)
  · exact h1'

/-- Witness for the amended C5 at the concrete instance: the all-ones solution is
feasible and indeed assigns item 20 to section 10 and selects it. -/
theorem claim_C5_witness :
    exSigOnes (Var.asg 0 0) = 1 ∧ exSigOnes (Var.sel 0) = 1 :=
  claim_C5_amended_required_assignment_unconditional exB5 exItems1 exSigOnes
    (by decide) (fun _ => Or.inr rfl) 0 (by decide) 10 (by decide) 0 (exDomain 10)
    rfl rfl

/-! ## Phase 3 extraction and claims C4 and C8 -/

theorem eval_map_terms (σ : Var → ℤ) (l : List α) (coef : α → ℤ) (var : α → Var) :
    LinExpr.eval σ ⟨l.map (fun p => (coef p, var p)), 0⟩ =
      (l.map (fun p => coef p * σ (var p))).sum := by
  rw [LinExpr.eval, List.map_map, add_zero]
  rfl

theorem phase3_sub {b : SectionSetConstraint} {items : List Candidate} {cs : List Cstr}
    {p2 : List Cstr} {recs : List (Nat × List Var)} {cnt : Nat}
    (hok : b.setup_section_constraints items = Except.ok cs)
    (h2 : hierarchyCstrs b 0 b.section_constraint_hierarchies = Except.ok (p2, recs, cnt)) :
    ∀ c ∈ perSectionCstrs b items (enforcementMap recs), c ∈ cs := by
  obtain ⟨p2', recs', cnt', p4, p5, h2', h4, h5, hcs⟩ := setup_ok_decomp hok
  have heq := h2'.symm.trans h2
  injection heq with h
  injection h with ha hb
  injection hb with hb1 hb2
  subst ha hb1
  intro c hc
  rw [hcs]
  exact List.mem_append_left _ (List.mem_append_left _ (List.mem_append_right _ hc))

theorem countCstr_mem_perSection {b : SectionSetConstraint} {items : List Candidate}
    {enf : Nat → List Var} {s : Nat} {ac : AttributeConstraint}
    (hs : s < b.sections.length) (hac : ac ∈ b.assignment_count_constraint s) :
    countCstr b items s (enf s) ac ∈ perSectionCstrs b items enf := by
  rw [perSectionCstrs, List.mem_flatMap]
  exact ⟨s, List.mem_range.mpr hs,
    List.mem_append_left _ (List.mem_map.mpr ⟨ac, hac, rfl⟩)⟩

theorem attrCstr_mem_perSection {b : SectionSetConstraint} {items : List Candidate}
    {enf : Nat → List Var} {s : Nat} {ac : AttributeConstraint}
    (hs : s < b.sections.length) (hac : ac ∈ b.targeted_section_constraints s) :
    attrCstr b items s (enf s) ac ∈ perSectionCstrs b items enf := by
  rw [perSectionCstrs, List.mem_flatMap]
  exact ⟨s, List.mem_range.mpr hs,
    List.mem_append_right _ (List.mem_map.mpr ⟨ac, hac, rfl⟩)⟩

theorem enf_lits_target {σ : Var → ℤ} {bools : List Var}
    (henf : ∀ v ∈ bools, σ v = 1) :
    ∀ l ∈ bools.map (fun v => ((v, true) : Lit)), σ l.1 = Lit.target l := by
  intro l hl
  obtain ⟨v, hv, rfl⟩ := List.mem_map.mp hl
  rw [Lit.target, if_pos rfl]
  exact henf v hv

/-- `sum(a[i,s] * filter_s(items[i]))`: the item count the compiled model actually
constrains for a section (each item weighted by the section's filter). -/
def sectionAssignmentSum (b : SectionSetConstraint) (items : List Candidate)
    (s : Nat) (σ : Var → ℤ) : ℤ :=
  ((enumerate items).map (fun p =>
    boolQ (b.section_assignment_filter s p.2.domain_object) * σ (Var.asg p.1 s))).sum

/-- The raw number of items assigned to a section, `sum over i of a[i,s]`. -/
def assignedCount (items : List Candidate) (s : Nat) (σ : Var → ℤ) : ℤ :=
  ((enumerate items).map (fun p => σ (Var.asg p.1 s))).sum

/-- Escape hatch for composing the `Except`-valued builder mutators in concrete
examples; every example compiles successfully, so the fallback is never taken. -/
def orInit (x : Except String SectionSetConstraint) : SectionSetConstraint :=
  match x with
  | Except.ok b => b
  | Except.error _ => SectionSetConstraint.init 1

/-- One section (URI 10) allowing invalid assignments, whose filter rejects item 20
and accepts item 21, with an exact-count-1 constraint. -/
def exB4 : SectionSetConstraint :=
  orInit (do
    let b0 := (SectionSetConstraint.init 1).set_sections [exDomain 10]
    let b1 ← b0.set_section_assignment_filter 10 (fun d => decide (d.uri ≠ 20))
    let b2 ← b1.allow_invalid_assignment_to_section 10
    b2.add_section_count_constraint none none (some 1) none)

def exItems4 : List Candidate := [exCand 20, exCand 21]

/-- Counterexample to claim C4 as stated: with an `exact_count = 1` constraint on a
section that allows invalid assignments and whose filter rejects item 20, the
all-ones solution is feasible (the posted constraint counts only filter-passing
items), yet the number of items assigned to the section, `sum over i of a[i,s]`,
is 2, not 1. There are no hierarchies, so the enforcement-boolean condition holds
vacuously. -/
theorem claim_C4_counterexample :
    ZeroOne exSigOnes ∧ feasible exB4 exItems4 exSigOnes = true ∧
    exB4.section_constraint_hierarchies = [] ∧
    AttributeConstraint.mk "__item_count" ConstraintType.EQ 1 ∈
      exB4.assignment_count_constraint 0 ∧
    assignedCount exItems4 0 exSigOnes ≠ 1 :=
  ⟨fun _ => Or.inr rfl, by decide, rfl, by decide, by decide⟩

/-- Claim C4, amended: a call of `add_section_count_constraint` with
`exact_count = k` records exactly the one EQ constraint on `__item_count`, whatever
`min_count` and `max_count` are; and for a section carrying such a constraint, in
every feasible solution whose enforcement booleans for that section are all 1, the
filter-weighted item count `sum(a[i,s] * filter_s(items[i]))` equals `k` (for a
section whose filter accepts every item, or any section outside
`allow_invalid_assignment`, this is the number of assigned items). -/
theorem claim_C4_amended_exact_count
    (b : SectionSetConstraint) (items : List Candidate) (σ : Var → ℤ)
    (hfeas : feasible b items σ = true)
    (p2 : List Cstr) (recs : List (Nat × List Var)) (cnt : Nat)
    (h2 : hierarchyCstrs b 0 b.section_constraint_hierarchies = Except.ok (p2, recs, cnt))
    (s : Nat) (hs : s < b.sections.length) (k : ℤ)
    (hac : AttributeConstraint.mk "__item_count" ConstraintType.EQ k ∈
      b.assignment_count_constraint s)
    (henf : ∀ v ∈ enforcementMap recs s, σ v = 1) :
    (∀ (mn mx : Option ℤ) (k2 : ℤ), sectionCountConstraints mn mx (some k2) =
      [AttributeConstraint.mk "__item_count" ConstraintType.EQ k2]) ∧
    sectionAssignmentSum b items s σ = k := by
  refine ⟨fun mn mx k2 => rfl, ?_⟩
  obtain ⟨cs, hok, hsat⟩ := feasible_decomp hfeas
  have hmem := phase3_sub hok h2 _ (countCstr_mem_perSection hs hac)
  have h1 := sat_rel_true (hsat.of_mem hmem) (enf_lits_target henf)
  rw [eval_map_terms, LinExpr.eval_konst] at h1
  exact holds_EQ.mp h1

/-- One section (URI 10) with an exact-count-1 constraint and no filters. -/
def exB4w : SectionSetConstraint :=
  orInit (((SectionSetConstraint.init 1).set_sections
    [exDomain 10]).add_section_count_constraint none none (some 1) none)

/-- Witness for the amended C4: the all-ones solution of the one-section,
one-item, exact-count-1 instance has filter-weighted count 1. -/
theorem claim_C4_witness :
    (∀ (mn mx : Option ℤ) (k2 : ℤ), sectionCountConstraints mn mx (some k2) =
      [AttributeConstraint.mk "__item_count" ConstraintType.EQ k2]) ∧
    sectionAssignmentSum exB4w exItems1 0 exSigOnes = 1 :=
  claim_C4_amended_exact_count exB4w exItems1 exSigOnes (by decide) [] [] 0 rfl
    0 (by decide) 1 (by decide) (fun v hv => absurd hv (List.not_mem_nil v))

/-- Per-item attribute constraints, no filters: one section (URI 10) with the
attribute constraint `cost <= 10`, scaling 1. -/
def exB8 : SectionSetConstraint :=
  orInit (((SectionSetConstraint.init 1).set_sections
    [exDomain 10]).add_section_constraint "cost" ConstraintType.LEQ 10 none)

/-- A candidate whose domain object carries `cost = 4`. -/
def exCand8 : Candidate :=
  ⟨⟨20, fun n => if n = "cost" then 4 else 0⟩, [], []⟩

def exItems8 : List Candidate := [exCand8]

/-- Claim C8: the compiled attribute constraint for `(value, name)` on section `s`
compares `sum(round(attr_i * scaling) * filter_s(item_i) * a[i,s])` against
`round(value * scaling)`: the same scaling factor and the same rounding are applied
to the per-item attribute values and to the threshold. -/
theorem claim_C8_attribute_scaling_symmetry
    (b : SectionSetConstraint) (items : List Candidate) (σ : Var → ℤ)
    (hfeas : feasible b items σ = true)
    (p2 : List Cstr) (recs : List (Nat × List Var)) (cnt : Nat)
    (h2 : hierarchyCstrs b 0 b.section_constraint_hierarchies = Except.ok (p2, recs, cnt))
    (s : Nat) (hs : s < b.sections.length) (ac : AttributeConstraint)
    (hac : ac ∈ b.targeted_section_constraints s)
    (henf : ∀ v ∈ enforcementMap recs s, σ v = 1) :
    ConstraintType.holds ac.constraint_type
      (((enumerate items).map (fun p =>
        (round (rgetattr p.2.domain_object ac.attribute_name * (b.scaling : ℚ)) : ℤ) *
          boolQ (b.section_assignment_filter s p.2.domain_object) *
          σ (Var.asg p.1 s))).sum)
      (round ((ac.constraint_value : ℚ) * (b.scaling : ℚ))) = true := by
  obtain ⟨cs, hok, hsat⟩ := feasible_decomp hfeas
  have hmem := phase3_sub hok h2 _ (attrCstr_mem_perSection hs hac)
  have h1 := sat_rel_true (hsat.of_mem hmem) (enf_lits_target henf)
  rw [eval_map_terms, LinExpr.eval_konst] at h1
  exact h1

/-- Witness for C8 at the concrete instance: one section, scaling 1, the attribute
constraint `cost <= 10`, one item with `cost = 4`; the all-ones solution is feasible
and the scaled-and-rounded comparison holds. -/
theorem claim_C8_witness :
    ConstraintType.holds ConstraintType.LEQ
      (((enumerate exItems8).map (fun p =>
        (round (rgetattr p.2.domain_object "cost" * (exB8.scaling : ℚ)) : ℤ) *
          boolQ (exB8.section_assignment_filter 0 p.2.domain_object) *
          exSigOnes (Var.asg p.1 0))).sum)
      (round (((10 : ℤ) : ℚ) * (exB8.scaling : ℚ))) = true := by
  have hfeas : feasible exB8 exItems8 exSigOnes = true := by
    rw [feasible]
    have hsetup : setup_section_constraints exB8 exItems8 = Except.ok
      [Cstr.rel ConstraintType.LEQ (LinExpr.ofVar (Var.asg 0 0))
        (LinExpr.ofVar (Var.sel 0)) [],
       Cstr.rel ConstraintType.LEQ (LinExpr.ofVar (Var.asg 0 0)) (LinExpr.konst 1) [],
       Cstr.maxEq (Var.sel 0) [Var.asg 0 0],
       Cstr.rel ConstraintType.LEQ
         ⟨[((round ((4 : ℚ) * ((1 : ℤ) : ℚ)) : ℤ) * 1, Var.asg 0 0)], 0⟩
         (LinExpr.konst (round (((10 : ℤ) : ℚ) * ((1 : ℤ) : ℚ)))) []] := rfl
    rw [hsetup]
    simp only [List.all_cons, List.all_nil, Bool.and_eq_true]
    refine ⟨by decide, by decide, by decide, ?_, trivial⟩
    simp only [Cstr.sat, List.all_nil, if_pos rfl, ConstraintType.holds, LinExpr.eval,
      LinExpr.konst, List.map_cons, List.map_nil, List.sum_cons, List.sum_nil]
    norm_num [exSigOnes]
  exact claim_C8_attribute_scaling_symmetry exB8 exItems8 exSigOnes hfeas [] [] 0 rfl
    0 (by decide) (AttributeConstraint.mk "cost" ConstraintType.LEQ 10) (by decide)
    (fun v hv => absurd hv (List.not_mem_nil v))

/-! ## Phase 4 extraction and claim C6 -/

theorem sac_mem_phase4 {b : SectionSetConstraint} {items : List Candidate}
    {sacs : List SectionAssignmentConstraint} {p4 : List Cstr}
    (hok : sectionAssignmentCstrs b items sacs = Except.ok p4)
    {sac : SectionAssignmentConstraint} (hsac : sac ∈ sacs) :
    ∃ csac, sacCstrsOverItems b sac (enumerate items) = Except.ok csac ∧
      ∀ c ∈ csac, c ∈ p4 := by
  induction sacs generalizing p4 with
  | nil => cases hsac
  | cons hd rest ih =>
      rw [sectionAssignmentCstrs] at hok
      rcases h1 : sacCstrsOverItems b hd (enumerate items) with e1 | c1
      · rw [h1, exceptBind_error] at hok; cases hok
      · rw [h1, exceptBind_ok] at hok
        rcases h2 : sectionAssignmentCstrs b items rest with e2 | c2
        · rw [h2, exceptBind_error] at hok; cases hok
        · rw [h2, exceptBind_ok] at hok
          injection hok with hp4
          rcases List.mem_cons.mp hsac with rfl | hmem
          · exact ⟨c1, h1, fun c hc => hp4 ▸ List.mem_append_left _ hc⟩
          · obtain ⟨csac, hcs, hsub⟩ := ih h2 hmem
            exact ⟨csac, hcs, fun c hc => hp4 ▸ List.mem_append_right _ (hsub c hc)⟩

theorem sacItem_mem {b : SectionSetConstraint} {sac : SectionAssignmentConstraint}
    {ps : List (Nat × Candidate)} {csac : List Cstr}
    (hok : sacCstrsOverItems b sac ps = Except.ok csac)
    {p : Nat × Candidate} (hp : p ∈ ps) :
    ∃ ci, sacItemCstrs b sac p.2 p.1 = Except.ok ci ∧ ∀ c ∈ ci, c ∈ csac := by
  induction ps generalizing csac with
  | nil => cases hp
  | cons hd rest ih =>
      rw [sacCstrsOverItems] at hok
      rcases h1 : sacItemCstrs b sac hd.2 hd.1 with e1 | c1
      · rw [h1, exceptBind_error] at hok; cases hok
      · rw [h1, exceptBind_ok] at hok
        rcases h2 : sacCstrsOverItems b sac rest with e2 | c2
        · rw [h2, exceptBind_error] at hok; cases hok
        · rw [h2, exceptBind_ok] at hok
          injection hok with hcs
          rcases List.mem_cons.mp hp with rfl | hmem
          · exact ⟨c1, h1, fun c hc => hcs ▸ List.mem_append_left _ hc⟩
          · obtain ⟨ci, hci, hsub⟩ := ih h2 hmem
            exact ⟨ci, hci, fun c hc => hcs ▸ List.mem_append_right _ (hsub c hc)⟩

theorem sacItemCstrs_posts {b : SectionSetConstraint}
    {sac : SectionAssignmentConstraint} {it : Candidate} {i ia ib : Nat}
    (hA : dictGet? b.uri_to_index sac.section_a_uri = some ia)
    (hB : dictGet? b.uri_to_index sac.section_b_uri = some ib)
    (hpost : sac.constraint_type ≠ ConstraintType.AM1 ∨
      (b.section_assignment_filter ia it.domain_object = true ∧
       b.section_assignment_filter ib it.domain_object = true)) :
    sacItemCstrs b sac it i = Except.ok
      [Cstr.rel sac.constraint_type (LinExpr.ofVar (Var.asg i ia))
        (LinExpr.ofVar (Var.asg i ib)) []] := by
  rw [sacItemCstrs]
  have hgA : dictGetE b.uri_to_index sac.section_a_uri = Except.ok ia := by
    rw [dictGetE, hA]
  have hgB : dictGetE b.uri_to_index sac.section_b_uri = Except.ok ib := by
    rw [dictGetE, hB]
  by_cases ham : sac.constraint_type = ConstraintType.AM1
  · rw [if_pos ham]
    rcases hpost with hne | ⟨hfa, hfb⟩
    · exact absurd ham hne
    · rw [hgA, exceptBind_ok, hfa]
      simp only [if_true]
      rw [hgB, exceptBind_ok, hfb]
      simp only [if_true]
  · rw [if_neg ham, hgA, exceptBind_ok, hgB, exceptBind_ok]

theorem sacItemCstrs_skips {b : SectionSetConstraint}
    {sac : SectionAssignmentConstraint} {it : Candidate} {i ia : Nat}
    (hA : dictGet? b.uri_to_index sac.section_a_uri = some ia)
    (ham : sac.constraint_type = ConstraintType.AM1)
    (hrej : b.section_assignment_filter ia it.domain_object = false ∨
      (∃ ib, dictGet? b.uri_to_index sac.section_b_uri = some ib ∧
        b.section_assignment_filter ib it.domain_object = false)) :
    sacItemCstrs b sac it i = Except.ok [] := by
  rw [sacItemCstrs, if_pos ham]
  have hgA : dictGetE b.uri_to_index sac.section_a_uri = Except.ok ia := by
    rw [dictGetE, hA]
  rw [hgA, exceptBind_ok]
  rcases hrej with hfa | ⟨ib, hB, hfb⟩
  · rw [hfa]
    simp only [Bool.false_eq_true, if_false]
  · by_cases hfa : b.section_assignment_filter ia it.domain_object
    · rw [hfa]
      simp only [if_true]
      have hgB : dictGetE b.uri_to_index sac.section_b_uri = Except.ok ib := by
        rw [dictGetE, hB]
      rw [hgB, exceptBind_ok, hfb]
      simp only [Bool.false_eq_true, if_false]
    · rw [Bool.of_not_eq_true hfa]
      simp only [Bool.false_eq_true, if_false]

theorem phase4_sub {b : SectionSetConstraint} {items : List Candidate} {cs p4 : List Cstr}
    (hok : b.setup_section_constraints items = Except.ok cs)
    (h4 : sectionAssignmentCstrs b items b.section_assignment_constraints =
      Except.ok p4) :
    ∀ c ∈ p4, c ∈ cs := by
  obtain ⟨p2', recs', cnt', p4', p5, h2', h4', h5, hcs⟩ := setup_ok_decomp hok
  have heq := h4'.symm.trans h4
  injection heq with h
  subst h
  intro c hc
  rw [hcs]
  exact List.mem_append_left _ (List.mem_append_right _ hc)

/-- Two sections (URIs 10, 11); section 10 allows invalid assignments and its filter
rejects item 20; an `AM1` cross-section constraint relates the two sections. -/
def exB6 : SectionSetConstraint :=
  orInit (do
    let b0 := (SectionSetConstraint.init 1).set_sections [exDomain 10, exDomain 11]
    let b1 ← b0.set_section_assignment_filter 10 (fun d => decide (d.uri ≠ 20))
    let b2 ← b1.allow_invalid_assignment_to_section 10
    Except.ok (b2.add_section_assignment_constraint 10 11 ConstraintType.AM1))

/-- Counterexample to claim C6 as stated: for the `AM1` constraint on sections 10
and 11, item 20 is rejected by section 10's filter only (section 11 accepts it), so
by the claim the constraint `AM1(a[0,0], a[0,1])` should be added; yet the all-ones
solution, which assigns item 20 to both sections, is feasible — the code skips the
constraint whenever at least one of the two filters rejects the item. -/
theorem claim_C6_counterexample :
    ZeroOne exSigOnes ∧ feasible exB6 exItems1 exSigOnes = true ∧
    exB6.section_assignment_constraints =
      [SectionAssignmentConstraint.mk ConstraintType.AM1 10 11] ∧
    exB6.section_assignment_filter 0 (exCand 20).domain_object = false ∧
    exB6.section_assignment_filter 1 (exCand 20).domain_object = true ∧
    exSigOnes (Var.asg 0 0) + exSigOnes (Var.asg 0 1) = 2 :=
  ⟨fun _ => Or.inr rfl, by decide, by decide, by decide, by decide, by decide⟩

/-- Claim C6, amended: for a cross-section assignment constraint and an item, if the
type is `AM1` and at least one of the two sections' filters rejects the item, the
constraint is skipped for that item (nothing is posted); in every other case the
constraint `type(a[i, idx_a], a[i, idx_b])` is posted and therefore holds in every
feasible solution. -/
theorem claim_C6_amended_assignment_constraint_skip
    (b : SectionSetConstraint) (items : List Candidate) (σ : Var → ℤ)
    (hfeas : feasible b items σ = true)
    (sac : SectionAssignmentConstraint)
    (hsac : sac ∈ b.section_assignment_constraints)
    (i : Nat) (it : Candidate) (hp : (i, it) ∈ enumerate items)
    (ia ib : Nat)
    (hA : dictGet? b.uri_to_index sac.section_a_uri = some ia)
    (hB : dictGet? b.uri_to_index sac.section_b_uri = some ib) :
    ((sac.constraint_type = ConstraintType.AM1 ∧
      (b.section_assignment_filter ia it.domain_object = false ∨
       b.section_assignment_filter ib it.domain_object = false)) →
      sacItemCstrs b sac it i = Except.ok []) ∧
    ((sac.constraint_type ≠ ConstraintType.AM1 ∨
      (b.section_assignment_filter ia it.domain_object = true ∧
       b.section_assignment_filter ib it.domain_object = true)) →
      ConstraintType.holds sac.constraint_type (σ (Var.asg i ia))
        (σ (Var.asg i ib)) = true) := by
  constructor
  · rintro ⟨ham, hrej⟩
    refine sacItemCstrs_skips hA ham ?_
    rcases hrej with hfa | hfb
    · exact Or.inl hfa
    · exact Or.inr ⟨ib, hB, hfb⟩
  · intro hpost
    obtain ⟨cs, hok, hsat⟩ := feasible_decomp hfeas
    obtain ⟨p2, recs, cnt, p4, p5, h2, h4, h5, hcs⟩ := setup_ok_decomp hok
    obtain ⟨csac, hcsac, hsub1⟩ := sac_mem_phase4 h4 hsac
    obtain ⟨ci, hci, hsub2⟩ := sacItem_mem hcsac hp
    dsimp only at hci
    have hpi := @sacItemCstrs_posts b sac it i ia ib hA hB hpost
    rw [hpi] at hci
    injection hci with hci
    have hmem : Cstr.rel sac.constraint_type (LinExpr.ofVar (Var.asg i ia))
        (LinExpr.ofVar (Var.asg i ib)) [] ∈ cs :=
      phase4_sub hok h4 _ (hsub1 _ (hsub2 _ (hci ▸ List.mem_singleton.mpr rfl)))
    have h1 := sat_rel_true (hsat.of_mem hmem)
      (fun l hl => absurd hl (List.not_mem_nil l))
    rw [LinExpr.eval_ofVar, LinExpr.eval_ofVar] at h1
    exact h1

/-- Two sections (URIs 10, 11), no filters, an `AM1` constraint between them. -/
def exB6w : SectionSetConstraint :=
  orInit (Except.ok (((SectionSetConstraint.init 1).set_sections
    [exDomain 10, exDomain 11]).add_section_assignment_constraint 10 11
    ConstraintType.AM1))

/-- A solution assigning the single item to section 0 only. -/
def exSig6 : Var → ℤ := fun v =>
  match v with
  | Var.asg _ 1 => 0
  | _ => 1

/-- Witness for the amended C6: with both filters accepting, the posted `AM1`
constraint holds in the feasible solution that assigns the item to section 0 only. -/
theorem claim_C6_witness :
    ((ConstraintType.AM1 = ConstraintType.AM1 ∧
      (exB6w.section_assignment_filter 0 (exCand 20).domain_object = false ∨
       exB6w.section_assignment_filter 1 (exCand 20).domain_object = false)) →
      sacItemCstrs exB6w (SectionAssignmentConstraint.mk ConstraintType.AM1 10 11)
        (exCand 20) 0 = Except.ok []) ∧
    ((ConstraintType.AM1 ≠ ConstraintType.AM1 ∨
      (exB6w.section_assignment_filter 0 (exCand 20).domain_object = true ∧
       exB6w.section_assignment_filter 1 (exCand 20).domain_object = true)) →
      ConstraintType.holds ConstraintType.AM1 (exSig6 (Var.asg 0 0))
        (exSig6 (Var.asg 0 1)) = true) := by
  have h01 : ZeroOne exSig6 := by
    intro v
    rcases v with i | ⟨i, s⟩ | n
    · right; rfl
    · match s with
      | 0 => right; rfl
      | 1 => left; rfl
      | (n + 2) => right; rfl
    · right; rfl
  exact claim_C6_amended_assignment_constraint_skip exB6w exItems1 exSig6
    (by decide) (SectionAssignmentConstraint.mk ConstraintType.AM1 10 11)
    (by decide) 0 (exCand 20) (List.mem_singleton.mpr rfl) 0 1 (by decide) (by decide)

/-! ## Claim C7: dangling references at compile time -/

/-- One section (URI 10) and a required assignment of item 20 to the unregistered
section URI 999. -/
def exB7 : SectionSetConstraint :=
  ((SectionSetConstraint.init 1).set_sections [exDomain 10]).add_required_item_assignment 999 20

/-- Counterexample to claim C7 as stated: a required item assignment referencing the
unregistered section URI 999 does not make `setup_section_constraints` fail — the
compilation succeeds and produces exactly the constraints of the same builder
without the required assignment, silently ignoring the dangling reference. -/
theorem claim_C7_counterexample :
    exB7.setup_section_constraints exItems1 = exB1.setup_section_constraints exItems1 ∧
    (exB7.setup_section_constraints exItems1).isOk = true :=
  ⟨rfl, rfl⟩

theorem sacItemCstrs_error_of_lookupA {b : SectionSetConstraint}
    {sac : SectionAssignmentConstraint} (it : Candidate) (i : Nat)
    (hA : dictGet? b.uri_to_index sac.section_a_uri = none) :
    sacItemCstrs b sac it i = Except.error "KeyError" := by
  rw [sacItemCstrs]
  have hgA : dictGetE b.uri_to_index sac.section_a_uri = Except.error "KeyError" := by
    rw [dictGetE, hA]
  by_cases ham : sac.constraint_type = ConstraintType.AM1
  · rw [if_pos ham, hgA, exceptBind_error]
  · rw [if_neg ham, hgA, exceptBind_error]

theorem sacItemCstrs_error_of_lookupB {b : SectionSetConstraint}
    {sac : SectionAssignmentConstraint} (it : Candidate) (i : Nat)
    (ham : sac.constraint_type ≠ ConstraintType.AM1)
    (hB : dictGet? b.uri_to_index sac.section_b_uri = none) :
    sacItemCstrs b sac it i = Except.error "KeyError" := by
  rw [sacItemCstrs, if_neg ham]
  rcases hA : dictGet? b.uri_to_index sac.section_a_uri with _ | ia
  · rw [show dictGetE b.uri_to_index sac.section_a_uri = Except.error "KeyError" from
      by rw [dictGetE, hA], exceptBind_error]
  · rw [show dictGetE b.uri_to_index sac.section_a_uri = Except.ok ia from
      by rw [dictGetE, hA], exceptBind_ok,
      show dictGetE b.uri_to_index sac.section_b_uri = Except.error "KeyError" from
      by rw [dictGetE, hB], exceptBind_error]

theorem sacCstrsOverItems_error {b : SectionSetConstraint}
    {sac : SectionAssignmentConstraint} {p : Nat × Candidate}
    {rest : List (Nat × Candidate)}
    (herr : sacItemCstrs b sac p.2 p.1 = Except.error "KeyError") :
    sacCstrsOverItems b sac (p :: rest) = Except.error "KeyError" := by
  rw [sacCstrsOverItems, herr, exceptBind_error]

theorem sectionAssignmentCstrs_not_ok {b : SectionSetConstraint}
    {items : List Candidate} {sacs : List SectionAssignmentConstraint}
    {sac : SectionAssignmentConstraint} (hsac : sac ∈ sacs)
    (herr : ∀ (i : Nat) (it : Candidate),
      sacItemCstrs b sac it i = Except.error "KeyError")
    (hne : items ≠ []) :
    ∀ p4, sectionAssignmentCstrs b items sacs ≠ Except.ok p4 := by
  have henum : ∃ q qs, enumerate items = q :: qs := by
    have hlen : (enumerate items).length = items.length := by
      rw [enumerate, List.length_zip, List.length_range, Nat.min_self]
    obtain ⟨x, xs, hx⟩ := List.exists_cons_of_ne_nil hne
    rcases he : enumerate items with _ | ⟨q, qs⟩
    · exfalso
      rw [he, hx] at hlen
      cases hlen
    · exact ⟨q, qs, rfl⟩
  obtain ⟨q, qs, he⟩ := henum
  induction sacs with
  | nil => cases hsac
  | cons hd rest ih =>
      intro p4 hok
      rw [sectionAssignmentCstrs] at hok
      rcases List.mem_cons.mp hsac with rfl | hmem
      · rw [he, sacCstrsOverItems_error (herr q.1 q.2), exceptBind_error] at hok
        cases hok
      · rcases h1 : sacCstrsOverItems b hd (enumerate items) with e1 | c1
        · rw [h1, exceptBind_error] at hok; cases hok
        · rw [h1, exceptBind_ok] at hok
          rcases h2 : sectionAssignmentCstrs b items rest with e2 | c2
          · rw [h2, exceptBind_error] at hok; cases hok
          · exact ih hmem c2 h2

theorem setup_not_ok_of_phase4 {b : SectionSetConstraint} {items : List Candidate}
    (h4 : ∀ p4, sectionAssignmentCstrs b items b.section_assignment_constraints ≠
      Except.ok p4) :
    (b.setup_section_constraints items).isOk = false := by
  rcases hok : b.setup_section_constraints items with e | cs
  · rfl
  · obtain ⟨p2, recs, cnt, p4, p5, h2, hp4, h5, hcs⟩ := setup_ok_decomp hok
    exact absurd hp4 (h4 _)

theorem orderingCstr_error {b : SectionSetConstraint} {itemIdx : Dict URIRef Nat}
    {ioc : ItemConstraint} (cnt : Nat)
    (h : dictGet? itemIdx ioc.item_a_uri = none ∨
      dictGet? itemIdx ioc.item_b_uri = none) :
    ∃ e, orderingCstr b itemIdx ioc cnt = Except.error e := by
  rw [orderingCstr]
  rcases h with hA | hB
  · refine ⟨"KeyError", ?_⟩
    rw [show dictGetE itemIdx ioc.item_a_uri = Except.error "KeyError" from
      by rw [dictGetE, hA], exceptBind_error]
  · rcases hA : dictGetE itemIdx ioc.item_a_uri with e | ia
    · exact ⟨e, by rw [exceptBind_error]⟩
    · refine ⟨"KeyError", ?_⟩
      rw [exceptBind_ok,
        show dictGetE itemIdx ioc.item_b_uri = Except.error "KeyError" from
        by rw [dictGetE, hB], exceptBind_error]

theorem itemOrderingCstrs_not_ok {b : SectionSetConstraint}
    {itemIdx : Dict URIRef Nat} {iocs : List ItemConstraint} {ioc : ItemConstraint}
    (hioc : ioc ∈ iocs)
    (herr : ∀ cnt, ∃ e, orderingCstr b itemIdx ioc cnt = Except.error e) :
    ∀ cnt p5, itemOrderingCstrs b itemIdx cnt iocs ≠ Except.ok p5 := by
  induction iocs with
  | nil => cases hioc
  | cons hd rest ih =>
      intro cnt p5 hok
      rw [itemOrderingCstrs] at hok
      rcases List.mem_cons.mp hioc with rfl | hmem
      · obtain ⟨e, he⟩ := herr cnt
        rw [he, exceptBind_error] at hok
        cases hok
      · rcases h1 : orderingCstr b itemIdx hd cnt with e1 | v1
        · rw [h1, exceptBind_error] at hok; cases hok
        · obtain ⟨c1, cnt1⟩ := v1
          rw [h1, exceptBind_ok] at hok
          dsimp only at hok
          rcases h2 : itemOrderingCstrs b itemIdx cnt1 rest with e2 | c2
          · rw [h2, exceptBind_error] at hok; cases hok
          · exact ih hmem cnt1 c2 h2

theorem setup_not_ok_of_phase5 {b : SectionSetConstraint} {items : List Candidate}
    (h5 : ∀ cnt p5, itemOrderingCstrs b (itemUriToIndex items) cnt
      b.item_ordering_constraints ≠ Except.ok p5) :
    (b.setup_section_constraints items).isOk = false := by
  rcases hok : b.setup_section_constraints items with e | cs
  · rfl
  · obtain ⟨p2, recs, cnt, p4, p5, h2, h4, hp5, hcs⟩ := setup_ok_decomp hok
    exact absurd hp5 (h5 cnt p5)

/-- One section (URI 10) whose filter rejects every item, and an `AM1` constraint
whose section-B URI 99 is unregistered. -/
def exB7b : SectionSetConstraint :=
  orInit (do
    let b0 := (SectionSetConstraint.init 1).set_sections [exDomain 10]
    let b1 ← b0.set_section_assignment_filter 10 (fun _ => false)
    Except.ok (b1.add_section_assignment_constraint 10 99 ConstraintType.AM1))

/-- Claim C7, amended: the compilation performs no URI validation, so a dangling
reference surfaces only where a dictionary lookup actually executes, as a plain
`KeyError`: a cross-section assignment constraint whose section-A URI is
unregistered fails compilation whenever there is at least one candidate item, and
so does a non-AM1 cross-section constraint whose section-B URI is unregistered; an
item-ordering constraint with an unknown independent or dependent item URI always
fails compilation; but a required item assignment to an unregistered section URI is
silently ignored (its per-item loop posts nothing), and an `AM1` constraint with an
unregistered section-B URI compiles successfully when section-A's filter rejects
every candidate, because the skip test short-circuits before looking section B up
(shown at a concrete instance). -/
theorem claim_C7_amended_dangling_references :
    (∀ (b : SectionSetConstraint) (items : List Candidate)
      (sac : SectionAssignmentConstraint),
      sac ∈ b.section_assignment_constraints →
      dictGet? b.uri_to_index sac.section_a_uri = none →
      items ≠ [] → (b.setup_section_constraints items).isOk = false) ∧
    (∀ (b : SectionSetConstraint) (items : List Candidate)
      (sac : SectionAssignmentConstraint),
      sac ∈ b.section_assignment_constraints →
      sac.constraint_type ≠ ConstraintType.AM1 →
      dictGet? b.uri_to_index sac.section_b_uri = none →
      items ≠ [] → (b.setup_section_constraints items).isOk = false) ∧
    (∀ (b : SectionSetConstraint) (items : List Candidate) (ioc : ItemConstraint),
      ioc ∈ b.item_ordering_constraints →
      (dictGet? (itemUriToIndex items) ioc.item_a_uri = none ∨
       dictGet? (itemUriToIndex items) ioc.item_b_uri = none) →
      (b.setup_section_constraints items).isOk = false) ∧
    (∀ (b2 : SectionSetConstraint) (i : Nat) (it : Candidate) (target : URIRef),
      dictGet? b2.required_item_assignments it.domain_object.uri = some target →
      (∀ sec ∈ b2.sections, sec.uri ≠ target) →
      requiredCstrs b2 i it = []) ∧
    ((exB7b.setup_section_constraints exItems1).isOk = true ∧
      dictGet? exB7b.uri_to_index 99 = none ∧
      exB7b.section_assignment_constraints =
        [SectionAssignmentConstraint.mk ConstraintType.AM1 10 99]) := by
  refine ⟨?_, ?_, ?_, ?_, by decide, by decide, by decide⟩
  · intro b items sac hsac hA hne
    exact setup_not_ok_of_phase4 (sectionAssignmentCstrs_not_ok hsac
      (fun i it => sacItemCstrs_error_of_lookupA it i hA) hne)
  · intro b items sac hsac ham hB hne
    exact setup_not_ok_of_phase4 (sectionAssignmentCstrs_not_ok hsac
      (fun i it => sacItemCstrs_error_of_lookupB it i ham hB) hne)
  · intro b items ioc hioc hdangling
    exact setup_not_ok_of_phase5 (itemOrderingCstrs_not_ok hioc
      (fun cnt => orderingCstr_error cnt hdangling))
  · intro b2 i it target hreq hnomatch
    rw [requiredCstrs, hreq]
    exact List.filterMap_eq_nil_iff.mpr
      (fun p hp => if_neg (hnomatch p.2 (mem_of_mem_enumerate hp)))

/-- One section, an `AM1` constraint whose section-A URI 99 is unregistered. -/
def exB7a : SectionSetConstraint :=
  ((SectionSetConstraint.init 1).set_sections
    [exDomain 10]).add_section_assignment_constraint 99 10 ConstraintType.AM1

/-- One section, an `EQ` cross-section constraint whose section-B URI 99 is
unregistered. -/
def exB7c : SectionSetConstraint :=
  ((SectionSetConstraint.init 1).set_sections
    [exDomain 10]).add_section_assignment_constraint 10 99 ConstraintType.EQ

/-- One section, an ordering constraint whose independent item URI 99 matches no
candidate. -/
def exB7o : SectionSetConstraint :=
  ((SectionSetConstraint.init 1).set_sections
    [exDomain 10]).add_item_ordering_dependence_constraint 99 20 ConstraintType.LESS

/-- Witness for the amended C7 at concrete instances: a dangling section-A URI
(`exB7a`), a dangling non-AM1 section-B URI (`exB7c`) and a dangling ordering item
URI (`exB7o`) each fail compilation, while the dangling required-assignment section
of `exB7` posts nothing. -/
theorem claim_C7_witness :
    (exB7a.setup_section_constraints exItems1).isOk = false ∧
    (exB7c.setup_section_constraints exItems1).isOk = false ∧
    (exB7o.setup_section_constraints exItems1).isOk = false ∧
    requiredCstrs exB7 0 (exCand 20) = [] :=
  ⟨claim_C7_amended_dangling_references.1 exB7a exItems1
      (SectionAssignmentConstraint.mk ConstraintType.AM1 99 10) (by decide)
      (by decide) (by intro h; cases h),
   claim_C7_amended_dangling_references.2.1 exB7c exItems1
      (SectionAssignmentConstraint.mk ConstraintType.EQ 10 99) (by decide)
      (by decide) (by decide) (by intro h; cases h),
   claim_C7_amended_dangling_references.2.2.1 exB7o exItems1
      (ItemConstraint.mk ConstraintType.LESS 99 20) (by decide)
      (Or.inl (by decide)),
   claim_C7_amended_dangling_references.2.2.2.1 exB7 0 (exCand 20) 999 (by decide)
      (by intro sec hsec h
          rcases List.mem_singleton.mp hsec with rfl
          cases h)⟩

/-! ## Phase 5 extraction and claim C2 -/

/-- The 1-based position sum `sum(a[x, j] * (j + 1) for j in range(S))` used by the
item-ordering constraints. Under at-most-one assignment it equals the item's
1-based section position when assigned, 0 when unassigned. -/
def posSum (S : Nat) (x : Nat) (σ : Var → ℤ) : ℤ :=
  ((List.range S).map (fun j => ((j + 1 : Nat) : ℤ) * σ (Var.asg x j))).sum

theorem eval_orderingSide (σ : Var → ℤ) (S idx other : Nat) :
    (orderingSide S idx other).eval σ =
      posSum S idx σ + ((S + 2 : Nat) : ℤ) * σ (Var.sel other) := by
  rw [orderingSide, LinExpr.eval, List.map_append, List.map_map, List.sum_append]
  simp only [List.map_cons, List.map_nil, List.sum_cons, List.sum_nil]
  rw [posSum, add_zero, add_zero]
  rfl

theorem posSum_zero {S x : Nat} {σ : Var → ℤ}
    (h : ∀ j, j < S → σ (Var.asg x j) = 0) : posSum S x σ = 0 := by
  rw [posSum]
  apply List.sum_eq_zero
  intro z hz
  obtain ⟨j, hj, rfl⟩ := List.mem_map.mp hz
  rw [h j (List.mem_range.mp hj), mul_zero]

theorem posSum_succ (S x : Nat) (σ : Var → ℤ) :
    posSum (S + 1) x σ = posSum S x σ + ((S + 1 : Nat) : ℤ) * σ (Var.asg x S) := by
  rw [posSum, posSum, List.range_succ, List.map_append, List.sum_append]
  simp

theorem posSum_le (S : Nat) : ∀ {x : Nat} {σ : Var → ℤ}, ZeroOne σ →
    (∀ s1, s1 < S → ∀ s2, s2 < S → σ (Var.asg x s1) = 1 → σ (Var.asg x s2) = 1 →
      s1 = s2) →
    posSum S x σ ≤ (S : ℤ) := by
  induction S with
  | zero =>
      intro x σ _ _
      rw [posSum]
      simp
  | succ S ih =>
      intro x σ h01 hone
      rw [posSum_succ]
      rcases h01 (Var.asg x S) with h0 | h1
      · rw [h0, mul_zero, add_zero]
        refine le_trans (ih h01 (fun s1 hs1 s2 hs2 => hone s1
          (Nat.lt_succ_of_lt hs1) s2 (Nat.lt_succ_of_lt hs2))) ?_
        push_cast
        linarith
      · have hz : ∀ j, j < S → σ (Var.asg x j) = 0 := by
          intro j hj
          rcases h01 (Var.asg x j) with h0' | h1'
          · exact h0'
          · exact absurd (hone j (Nat.lt_succ_of_lt hj) S (Nat.lt_succ_self S) h1' h1)
              (Nat.ne_of_lt hj)
        rw [posSum_zero hz, h1, mul_one, zero_add]

theorem posSum_of_one (S : Nat) : ∀ {x s0 : Nat} {σ : Var → ℤ}, ZeroOne σ →
    (∀ s1, s1 < S → ∀ s2, s2 < S → σ (Var.asg x s1) = 1 → σ (Var.asg x s2) = 1 →
      s1 = s2) →
    s0 < S → σ (Var.asg x s0) = 1 → posSum S x σ = ((s0 + 1 : Nat) : ℤ) := by
  induction S with
  | zero => intro x s0 σ _ _ hs0 _; cases hs0
  | succ S ih =>
      intro x s0 σ h01 hone hs0 hval
      rw [posSum_succ]
      by_cases hS : s0 = S
      · have hvalS : σ (Var.asg x S) = 1 := by rw [← hS]; exact hval
        have hz : ∀ j, j < S → σ (Var.asg x j) = 0 := by
          intro j hj
          rcases h01 (Var.asg x j) with h0' | h1'
          · exact h0'
          · exact absurd (hone j (Nat.lt_succ_of_lt hj) S (Nat.lt_succ_self S)
              h1' hvalS) (Nat.ne_of_lt hj)
        rw [posSum_zero hz, hvalS, mul_one, zero_add, hS]
      · have hs0' : s0 < S := Nat.lt_of_le_of_ne (Nat.le_of_lt_succ hs0) hS
        have h0 : σ (Var.asg x S) = 0 := by
          rcases h01 (Var.asg x S) with h0' | h1'
          · exact h0'
          · exact absurd (hone s0 hs0 S (Nat.lt_succ_self S) hval h1') hS
        rw [h0, mul_zero, add_zero]
        exact ih h01 (fun s1 hs1 s2 hs2 => hone s1 (Nat.lt_succ_of_lt hs1) s2
          (Nat.lt_succ_of_lt hs2)) hs0' hval

theorem ioc_mem_phase5 {b : SectionSetConstraint} {itemIdx : Dict URIRef Nat}
    {cnt : Nat} {iocs : List ItemConstraint} {p5 : List Cstr}
    (hok : itemOrderingCstrs b itemIdx cnt iocs = Except.ok p5)
    {ioc : ItemConstraint} (hioc : ioc ∈ iocs) :
    ∃ cnt0 ci cnt1, orderingCstr b itemIdx ioc cnt0 = Except.ok (ci, cnt1) ∧
      ∀ c ∈ ci, c ∈ p5 := by
  induction iocs generalizing cnt p5 with
  | nil => cases hioc
  | cons hd rest ih =>
      rw [itemOrderingCstrs] at hok
      rcases h1 : orderingCstr b itemIdx hd cnt with e1 | v1
      · rw [h1, exceptBind_error] at hok; cases hok
      · obtain ⟨c1, cnt1⟩ := v1
        rw [h1, exceptBind_ok] at hok
        dsimp only at hok
        rcases h2 : itemOrderingCstrs b itemIdx cnt1 rest with e2 | c2
        · rw [h2, exceptBind_error] at hok; cases hok
        · rw [h2, exceptBind_ok] at hok
          injection hok with hp5
          rcases List.mem_cons.mp hioc with rfl | hmem
          · exact ⟨cnt, c1, cnt1, h1, fun c hc => hp5 ▸ List.mem_append_left _ hc⟩
          · obtain ⟨cnt0, ci, cnt1', hc, hsub⟩ := ih h2 hmem
            exact ⟨cnt0, ci, cnt1', hc,
              fun c hc2 => hp5 ▸ List.mem_append_right _ (hsub c hc2)⟩

theorem phase5_sub {b : SectionSetConstraint} {items : List Candidate}
    {cs p5 : List Cstr} {cnt : Nat}
    (hok : b.setup_section_constraints items = Except.ok cs)
    (h2 : ∃ p2 recs, hierarchyCstrs b 0 b.section_constraint_hierarchies =
      Except.ok (p2, recs, cnt))
    (h5 : itemOrderingCstrs b (itemUriToIndex items) cnt b.item_ordering_constraints =
      Except.ok p5) :
    ∀ c ∈ p5, c ∈ cs := by
  obtain ⟨p2, recs, h2⟩ := h2
  obtain ⟨p2', recs', cnt', p4', p5', h2', h4', h5', hcs⟩ := setup_ok_decomp hok
  have heq := h2'.symm.trans h2
  injection heq with h
  injection h with ha hb
  injection hb with hb1 hb2
  subst hb2
  have heq5 := h5'.symm.trans h5
  injection heq5 with h55
  subst h55
  intro c hc
  rw [hcs]
  exact List.mem_append_right _ hc

theorem orderingCstr_eq_of_less {b : SectionSetConstraint}
    {itemIdx : Dict URIRef Nat} {ioc : ItemConstraint} {ia ib : Nat} (cnt : Nat)
    (hA : dictGet? itemIdx ioc.item_a_uri = some ia)
    (hB : dictGet? itemIdx ioc.item_b_uri = some ib)
    (hless : ioc.constraint_type = ConstraintType.LESS) :
    orderingCstr b itemIdx ioc cnt = Except.ok
      ([Cstr.rel ioc.constraint_type (orderingSide b.sections.length ia ib)
          (orderingSide b.sections.length ib ia) [(Var.b cnt, true)],
        Cstr.rel ConstraintType.EQ (LinExpr.ofVar (Var.sel ib)) (LinExpr.konst 1)
          [(Var.b cnt, true)],
        Cstr.rel ConstraintType.EQ (LinExpr.ofVar (Var.sel ib)) (LinExpr.konst 0)
          [(Var.b cnt, false)]], cnt + 1) := by
  rw [orderingCstr]
  have hgA : dictGetE itemIdx ioc.item_a_uri = Except.ok ia := by rw [dictGetE, hA]
  have hgB : dictGetE itemIdx ioc.item_b_uri = Except.ok ib := by rw [dictGetE, hB]
  rw [hgA, exceptBind_ok, hgB, exceptBind_ok]
  rw [if_pos (Or.inl hless)]

/-- Three sections and an ordering constraint `LESS` making item 21 depend on
item 20. -/
def exB2 : SectionSetConstraint :=
  ((SectionSetConstraint.init 1).set_sections
    [exDomain 10, exDomain 11, exDomain 12]).add_item_ordering_dependence_constraint
    20 21 ConstraintType.LESS

def exItems2 : List Candidate := [exCand 20, exCand 21]

/-- A solution selecting only the dependent item 21 and assigning it to all three
sections. -/
def exSig2 : Var → ℤ := fun v =>
  match v with
  | Var.sel 1 => 1
  | Var.sel _ => 0
  | Var.asg 1 _ => 1
  | Var.asg _ _ => 0
  | Var.b _ => 1

/-- Counterexample to claim C2 as stated: with three sections and the ordering
constraint `LESS(20, 21)`, the solution selecting only the dependent item 21 and
assigning it to all three sections is feasible — selection of the dependent item
does not imply selection of the independent one once multi-section assignment makes
the position sums exceed the `S + 2` padding. -/
theorem claim_C2_counterexample :
    ZeroOne exSig2 ∧ feasible exB2 exItems2 exSig2 = true ∧
    exB2.item_ordering_constraints =
      [ItemConstraint.mk ConstraintType.LESS 20 21] ∧
    exSig2 (Var.sel 1) = 1 ∧ exSig2 (Var.sel 0) = 0 := by
  refine ⟨?_, by decide, by decide, rfl, rfl⟩
  intro v
  rcases v with i | ⟨i, s⟩ | n
  · match i with
    | 0 => left; rfl
    | 1 => right; rfl
    | (n + 2) => left; rfl
  · match i with
    | 0 => left; rfl
    | 1 => right; rfl
    | (n + 2) => left; rfl
  · right; rfl

/-- Two sections and the ordering constraint `LESS(20, 21)`. -/
def exB2w : SectionSetConstraint :=
  ((SectionSetConstraint.init 1).set_sections
    [exDomain 10, exDomain 11]).add_item_ordering_dependence_constraint
    20 21 ConstraintType.LESS

/-- A solution of `exB2w` selecting only the independent item 20 (section 0); the
ordering boolean is 0. -/
def exSig2free : Var → ℤ := fun v =>
  match v with
  | Var.sel 0 => 1
  | Var.asg 0 0 => 1
  | _ => 0

/-- Claim C2, amended: for an item-ordering constraint of type LESS, in every
feasible solution in which each of the two items is assigned to at most one section
(the code's stated assumption for ordering constraints): if the dependent item `b`
is selected, the independent item `a` is selected too, and `a`'s 1-based section
position is strictly below `b`'s. The independent item is not restricted alone: at
a concrete two-section instance, the solution selecting only item `a` is feasible. -/
theorem claim_C2_amended_ordering_less
    (b : SectionSetConstraint) (items : List Candidate) (σ : Var → ℤ)
    (hfeas : feasible b items σ = true) (h01 : ZeroOne σ)
    (ioc : ItemConstraint) (hioc : ioc ∈ b.item_ordering_constraints)
    (hless : ioc.constraint_type = ConstraintType.LESS)
    (ia ib : Nat)
    (hA : dictGet? (itemUriToIndex items) ioc.item_a_uri = some ia)
    (hB : dictGet? (itemUriToIndex items) ioc.item_b_uri = some ib)
    (hia : ia < items.length) (hib : ib < items.length)
    (honeA : ∀ s1, s1 < b.sections.length → ∀ s2, s2 < b.sections.length →
      σ (Var.asg ia s1) = 1 → σ (Var.asg ia s2) = 1 → s1 = s2)
    (honeB : ∀ s1, s1 < b.sections.length → ∀ s2, s2 < b.sections.length →
      σ (Var.asg ib s1) = 1 → σ (Var.asg ib s2) = 1 → s1 = s2) :
    (σ (Var.sel ib) = 1 →
      σ (Var.sel ia) = 1 ∧
      ∃ sa sb, sa < b.sections.length ∧ sb < b.sections.length ∧
        σ (Var.asg ia sa) = 1 ∧ σ (Var.asg ib sb) = 1 ∧ sa < sb) ∧
    (feasible exB2w exItems2 exSig2free = true ∧
      exSig2free (Var.sel 0) = 1 ∧ exSig2free (Var.sel 1) = 0) := by
  refine ⟨?_, by decide, rfl, rfl⟩
  intro hselb
  obtain ⟨cs, hok, hsat⟩ := feasible_decomp hfeas
  obtain ⟨p2, recs, cnt, p4, p5, h2, h4, h5, hcs⟩ := setup_ok_decomp hok
  obtain ⟨cnt0, ci, cnt1, hoc, hsub⟩ := ioc_mem_phase5 h5 hioc
  rw [orderingCstr_eq_of_less cnt0 hA hB hless] at hoc
  injection hoc with hoc
  injection hoc with hci hcnt
  have hsub' : ∀ c ∈ ci, c ∈ cs :=
    fun c hc => phase5_sub hok ⟨p2, recs, h2⟩ h5 c (hsub c hc)
  rw [← hci] at hsub'
  have hcond : σ (Var.b cnt0) = 1 := by
    rcases h01 (Var.b cnt0) with h0 | h1
    · exfalso
      have hm := hsub' _ (List.mem_cons_of_mem _ (List.mem_cons_of_mem _
        (List.mem_cons_self _ _)))
      have hz := sat_rel_true (hsat.of_mem hm) (by
        intro l hl
        rcases List.mem_singleton.mp hl with rfl
        rw [Lit.target, if_neg (by intro h; cases h)]
        exact h0)
      rw [LinExpr.eval_ofVar, LinExpr.eval_konst] at hz
      rw [holds_EQ.mp hz] at hselb
      cases hselb
    · exact h1
  have hcontent := sat_rel_true
    (hsat.of_mem (hsub' _ (List.mem_cons_self _ _))) (by
      intro l hl
      rcases List.mem_singleton.mp hl with rfl
      rw [Lit.target, if_pos rfl]
      exact hcond)
  rw [hless] at hcontent
  rw [eval_orderingSide, eval_orderingSide] at hcontent
  have hlt := holds_LESS.mp hcontent
  rw [hselb, mul_one] at hlt
  have hselcov := feasible_selection_coverage b items σ hfeas h01
  have hselA : σ (Var.sel ia) = 1 := by
    rcases h01 (Var.sel ia) with h0 | h1
    · exfalso
      have hzA : ∀ j, j < b.sections.length → σ (Var.asg ia j) = 0 := by
        intro j hj
        have hle := (hselcov ia hia).1 j hj
        rw [h0] at hle
        rcases h01 (Var.asg ia j) with h0' | h1'
        · exact h0'
        · rw [h1'] at hle; linarith
      rw [posSum_zero hzA, zero_add, h0, mul_zero, add_zero] at hlt
      have hbS := posSum_le b.sections.length h01 honeB
      have : ((b.sections.length + 2 : Nat) : ℤ) ≤ (b.sections.length : ℤ) := by
        calc ((b.sections.length + 2 : Nat) : ℤ) ≤ posSum b.sections.length ib σ :=
          le_of_lt hlt
        _ ≤ (b.sections.length : ℤ) := hbS
      push_cast at this
      linarith
    · exact h1
  refine ⟨hselA, ?_⟩
  obtain ⟨sa, hsa, hva⟩ := ((hselcov ia hia).2.2).mp hselA
  obtain ⟨sb, hsb, hvb⟩ := ((hselcov ib hib).2.2).mp hselb
  refine ⟨sa, sb, hsa, hsb, hva, hvb, ?_⟩
  rw [hselA, mul_one] at hlt
  rw [posSum_of_one b.sections.length h01 honeA hsa hva,
    posSum_of_one b.sections.length h01 honeB hsb hvb] at hlt
  have : ((sa + 1 : Nat) : ℤ) < ((sb + 1 : Nat) : ℤ) := by linarith
  exact Nat.lt_of_succ_lt_succ (by exact_mod_cast this)

/-- A solution of `exB2w` selecting both items in order: item 20 in section 0,
item 21 in section 1, ordering boolean 1. -/
def exSig2wit : Var → ℤ := fun v =>
  match v with
  | Var.asg 0 0 => 1
  | Var.asg 1 1 => 1
  | Var.asg _ _ => 0
  | _ => 1

/-- Witness for the amended C2 at the two-section instance: in the feasible
solution selecting both items, selection of the dependent item implies the
conclusion, and the `a`-alone solution is feasible. -/
theorem claim_C2_witness :
    (exSig2wit (Var.sel 1) = 1 →
      exSig2wit (Var.sel 0) = 1 ∧
      ∃ sa sb, sa < exB2w.sections.length ∧ sb < exB2w.sections.length ∧
        exSig2wit (Var.asg 0 sa) = 1 ∧ exSig2wit (Var.asg 1 sb) = 1 ∧ sa < sb) ∧
    (feasible exB2w exItems2 exSig2free = true ∧
      exSig2free (Var.sel 0) = 1 ∧ exSig2free (Var.sel 1) = 0) := by
  have h01 : ZeroOne exSig2wit := by
    intro v
    rcases v with i | ⟨i, s⟩ | n
    · right; rfl
    · match i, s with
      | 0, 0 => right; rfl
      | 0, (m + 1) => left; rfl
      | 1, 0 => left; rfl
      | 1, 1 => right; rfl
      | 1, (m + 2) => left; rfl
      | (m + 2), _ => left; rfl
    · right; rfl
  exact claim_C2_amended_ordering_less exB2w exItems2 exSig2wit (by decide) h01
    (ItemConstraint.mk ConstraintType.LESS 20 21) (by decide) rfl 0 1
    (by decide) (by decide) (by decide) (by decide) (by decide) (by decide)

/-! ## Phase 2 soundness and claim C3 -/

theorem sum_le_length {σ : Var → ℤ} (h01 : ZeroOne σ) (l : List Var) :
    (l.map σ).sum ≤ (l.length : ℤ) := by
  induction l with
  | nil => simp
  | cons a l ih =>
      simp only [List.map_cons, List.sum_cons, List.length_cons]
      have ha : σ a ≤ 1 := by
        rcases h01 a with h0 | h1
        · rw [h0]; norm_num
        · rw [h1]
      push_cast
      linarith

theorem all_one_of_sum_ge_length {σ : Var → ℤ} (h01 : ZeroOne σ) :
    ∀ (l : List Var), (l.length : ℤ) ≤ (l.map σ).sum → ∀ v ∈ l, σ v = 1 := by
  intro l
  induction l with
  | nil => intro _ v hv; cases hv
  | cons a l ih =>
      intro h v hv
      simp only [List.map_cons, List.sum_cons, List.length_cons] at h
      have hs := sum_le_length h01 l
      have ha : σ a = 1 := by
        rcases h01 a with h0 | h1
        · rw [h0] at h; push_cast at h; linarith
        · exact h1
      rcases List.mem_cons.mp hv with rfl | hmem
      · exact ha
      · refine ih ?_ v hmem
        rw [ha] at h
        push_cast at h
        linarith

theorem exists_one_of_sum_ge_one {σ : Var → ℤ} (h01 : ZeroOne σ) :
    ∀ (l : List Var), (1 : ℤ) ≤ (l.map σ).sum → ∃ v ∈ l, σ v = 1 := by
  intro l
  induction l with
  | nil => intro h; norm_num at h
  | cons a l ih =>
      intro h
      rcases h01 a with h0 | h1
      · simp only [List.map_cons, List.sum_cons, h0, zero_add] at h
        obtain ⟨v, hv, hval⟩ := ih h
        exact ⟨v, List.mem_cons_of_mem _ hv, hval⟩
      · exact ⟨a, List.mem_cons_self _ _, h1⟩

theorem eval_sumVars (σ : Var → ℤ) (vars : List Var) :
    LinExpr.eval σ ⟨vars.map (fun v => ((1 : ℤ), v)), 0⟩ = (vars.map σ).sum := by
  rw [LinExpr.eval, List.map_map, add_zero]
  congr 1
  simp [Function.comp]

/-- The two constraints posted at one hierarchy node force, whenever the node's
chain of enforcement booleans is all 1, all its AND-child booleans to 1 and at
least one OR-child boolean to 1. -/
theorem sumGeq_all_one {σ : Var → ℤ} (h01 : ZeroOne σ) {bools parents : List Var}
    (hsat : Cstr.sat σ (sumGeq bools (bools.length : ℤ) parents) = true)
    (hchain : ∀ v ∈ parents, σ v = 1) : ∀ v ∈ bools, σ v = 1 := by
  have h := sat_rel_true hsat (enf_lits_target hchain)
  rw [eval_sumVars, LinExpr.eval_konst] at h
  exact all_one_of_sum_ge_length h01 bools (holds_GEQ.mp h)

theorem sumGeq_exists_one {σ : Var → ℤ} (h01 : ZeroOne σ) {bools parents : List Var}
    (hsat : Cstr.sat σ (sumGeq bools 1 parents) = true)
    (hchain : ∀ v ∈ parents, σ v = 1) : ∃ v ∈ bools, σ v = 1 := by
  have h := sat_rel_true hsat (enf_lits_target hchain)
  rw [eval_sumVars, LinExpr.eval_konst] at h
  exact exists_one_of_sum_ge_one h01 bools (holds_GEQ.mp h)

mutual
/-- Soundness of the recursive enforcement-boolean setup at one hierarchy node:
the bookkeeping mirror `hierNodes` computes the same fresh-boolean counter, and in
any valuation satisfying the posted constraints, every recorded node whose chain is
all 1 has all AND-child booleans 1 and, when it has OR children, at least one
OR-child boolean 1. -/
theorem hierNode_sound (b : SectionSetConstraint) (σ : Var → ℤ) (h01 : ZeroOne σ) :
    ∀ (parents : List Var) (cnt : Nat) (h : SectionConstraintHierarchy)
      (cstrs : List Cstr) (enf : List (Nat × List Var)) (cnt' : Nat),
      addRecursiveEnforcementBooleans b parents cnt h = Except.ok (cstrs, enf, cnt') →
      (∀ c ∈ cstrs, Cstr.sat σ c = true) →
      ∃ nodes, hierNodes parents cnt h = (nodes, cnt') ∧
        ∀ nd ∈ nodes, (∀ v ∈ nd.chain, σ v = 1) →
          (∀ v ∈ nd.andBools, σ v = 1) ∧
          (nd.orBools ≠ [] → ∃ v ∈ nd.orBools, σ v = 1)
  | parents, cnt, SectionConstraintHierarchy.node ru depA depO,
      cstrs, enf, cnt', hok, hsat => by
    rw [addRecursiveEnforcementBooleans] at hok
    rcases hidx : dictGetE b.uri_to_index ru with e | idx
    · rw [hidx, exceptBind_error] at hok; cases hok
    · rw [hidx, exceptBind_ok] at hok
      rcases hA : enforcementBooleansForChildren b parents cnt depA with eA | vA
      · rw [hA, exceptBind_error] at hok; cases hok
      · obtain ⟨aC, aE, aBools, cnt1⟩ := vA
        rw [hA, exceptBind_ok] at hok
        dsimp only at hok
        rcases hO : enforcementBooleansForChildren b parents cnt1 depO with eO | vO
        · rw [hO, exceptBind_error] at hok; cases hok
        · obtain ⟨oC, oE, oBools, cnt2⟩ := vO
          rw [hO, exceptBind_ok] at hok
          dsimp only at hok
          injection hok with hok
          injection hok with hc hrest
          injection hrest with he hcnt
          have hsatA : ∀ c ∈ aC, Cstr.sat σ c = true := fun c hcc =>
            hsat c (hc ▸ List.mem_append_left _ (List.mem_append_left _
              (List.mem_append_left _ hcc)))
          have hsatO : ∀ c ∈ oC, Cstr.sat σ c = true := fun c hcc =>
            hsat c (hc ▸ List.mem_append_left _ (List.mem_append_right _ hcc))
          obtain ⟨aN, heqA, hndA⟩ :=
            hierKids_sound b σ h01 parents cnt depA aC aE aBools cnt1 hA hsatA
          obtain ⟨oN, heqO, hndO⟩ :=
            hierKids_sound b σ h01 parents cnt1 depO oC oE oBools cnt2 hO hsatO
          refine ⟨HierNode.mk parents aBools oBools :: (aN ++ oN), ?_, ?_⟩
          · rw [hierNodes, heqA]
            dsimp only
            rw [heqO]
            dsimp only
            rw [hcnt]
          · intro nd hnd hchain
            rcases List.mem_cons.mp hnd with rfl | hmem
            · constructor
              · rcases haB : aBools.isEmpty with hfalse | htrue
                · have hmemA : sumGeq aBools (aBools.length : ℤ) parents ∈ cstrs := by
                    rw [← hc]
                    apply List.mem_append_left
                    apply List.mem_append_left
                    apply List.mem_append_right
                    rw [haB]
                    exact List.mem_singleton.mpr rfl
                  exact sumGeq_all_one h01 (hsat _ hmemA) hchain
                · intro v hv
                  rw [List.isEmpty_iff] at haB
                  rw [haB] at hv
                  cases hv
              · intro hne
                have hoB : oBools.isEmpty = false := by
                  rcases hemp : oBools.isEmpty with h' | h'
                  · rfl
                  · rw [List.isEmpty_iff] at hemp
                    exact absurd hemp hne
                have hmemO : sumGeq oBools 1 parents ∈ cstrs := by
                  rw [← hc]
                  apply List.mem_append_right
                  rw [hoB]
                  exact List.mem_singleton.mpr rfl
                exact sumGeq_exists_one h01 (hsat _ hmemO) hchain
            · rcases List.mem_append.mp hmem with hmA | hmO
              · exact hndA nd hmA hchain
              · exact hndO nd hmO hchain

/-- Soundness of the child loop: it creates one fresh boolean per child, recurses
with it prepended to the chain, and the bookkeeping mirror agrees. -/
theorem hierKids_sound (b : SectionSetConstraint) (σ : Var → ℤ) (h01 : ZeroOne σ) :
    ∀ (parents : List Var) (cnt : Nat) (hs : List SectionConstraintHierarchy)
      (cstrs : List Cstr) (enf : List (Nat × List Var)) (bools : List Var)
      (cnt' : Nat),
      enforcementBooleansForChildren b parents cnt hs =
        Except.ok (cstrs, enf, bools, cnt') →
      (∀ c ∈ cstrs, Cstr.sat σ c = true) →
      ∃ nodes, hierNodesChildren parents cnt hs = (nodes, bools, cnt') ∧
        ∀ nd ∈ nodes, (∀ v ∈ nd.chain, σ v = 1) →
          (∀ v ∈ nd.andBools, σ v = 1) ∧
          (nd.orBools ≠ [] → ∃ v ∈ nd.orBools, σ v = 1)
  | parents, cnt, [], cstrs, enf, bools, cnt', hok, hsat => by
    rw [enforcementBooleansForChildren] at hok
    injection hok with hok
    injection hok with hc hrest
    injection hrest with he hrest2
    injection hrest2 with hb hcnt
    refine ⟨[], ?_, fun nd hnd => absurd hnd (List.not_mem_nil nd)⟩
    rw [hierNodesChildren, hb, hcnt]
  | parents, cnt, hh :: rest, cstrs, enf, bools, cnt', hok, hsat => by
    rw [enforcementBooleansForChildren] at hok
    rcases h1 : addRecursiveEnforcementBooleans b (Var.b cnt :: parents) (cnt + 1) hh
      with e1 | v1
    · rw [h1, exceptBind_error] at hok; cases hok
    · obtain ⟨c1, e1', cnt1⟩ := v1
      rw [h1, exceptBind_ok] at hok
      dsimp only at hok
      rcases h2 : enforcementBooleansForChildren b parents cnt1 rest with e2 | v2
      · rw [h2, exceptBind_error] at hok; cases hok
      · obtain ⟨c2, e2', bools2, cnt2⟩ := v2
        rw [h2, exceptBind_ok] at hok
        dsimp only at hok
        injection hok with hok
        injection hok with hc hrest'
        injection hrest' with he hrest2
        injection hrest2 with hb hcnt
        have hsat1 : ∀ c ∈ c1, Cstr.sat σ c = true := fun c hcc =>
          hsat c (hc ▸ List.mem_append_left _ hcc)
        have hsat2 : ∀ c ∈ c2, Cstr.sat σ c = true := fun c hcc =>
          hsat c (hc ▸ List.mem_append_right _ hcc)
        obtain ⟨n1, heq1, hnd1⟩ := hierNode_sound b σ h01 (Var.b cnt :: parents)
          (cnt + 1) hh c1 e1' cnt1 h1 hsat1
        obtain ⟨n2, heq2, hnd2⟩ :=
          hierKids_sound b σ h01 parents cnt1 rest c2 e2' bools2 cnt2 h2 hsat2
        refine ⟨n1 ++ n2, ?_, ?_⟩
        · rw [hierNodesChildren, heq1]
          dsimp only
          rw [heq2]
          dsimp only
          rw [← hb, ← hcnt]
        · intro nd hnd hchain
          rcases List.mem_append.mp hnd with hm1 | hm2
          · exact hnd1 nd hm1 hchain
          · exact hnd2 nd hm2 hchain
end

/-- Soundness of the top-level hierarchy loop: each root gets a fresh boolean fixed
to 1, and every recorded node obeys the AND/OR discipline. -/
theorem hierForest_sound (b : SectionSetConstraint) (σ : Var → ℤ) (h01 : ZeroOne σ) :
    ∀ (cnt : Nat) (hs : List SectionConstraintHierarchy) (cstrs : List Cstr)
      (enf : List (Nat × List Var)) (cnt' : Nat),
      hierarchyCstrs b cnt hs = Except.ok (cstrs, enf, cnt') →
      (∀ c ∈ cstrs, Cstr.sat σ c = true) →
      ∃ tops nodes, hierForest cnt hs = (tops, nodes, cnt') ∧
        (∀ v ∈ tops, σ v = 1) ∧
        ∀ nd ∈ nodes, (∀ v ∈ nd.chain, σ v = 1) →
          (∀ v ∈ nd.andBools, σ v = 1) ∧
          (nd.orBools ≠ [] → ∃ v ∈ nd.orBools, σ v = 1) := by
  intro cnt hs
  induction hs generalizing cnt with
  | nil =>
      intro cstrs enf cnt' hok hsat
      rw [hierarchyCstrs] at hok
      injection hok with hok
      injection hok with hc hrest
      injection hrest with he hcnt
      exact ⟨[], [], by rw [hierForest, hcnt], fun v hv => absurd hv (List.not_mem_nil v),
        fun nd hnd => absurd hnd (List.not_mem_nil nd)⟩
  | cons hh rest ih =>
      intro cstrs enf cnt' hok hsat
      rw [hierarchyCstrs] at hok
      rcases h1 : addRecursiveEnforcementBooleans b [Var.b cnt] (cnt + 1) hh
        with e1 | v1
      · rw [h1, exceptBind_error] at hok; cases hok
      · obtain ⟨c1, e1', cnt1⟩ := v1
        rw [h1, exceptBind_ok] at hok
        dsimp only at hok
        rcases h2 : hierarchyCstrs b cnt1 rest with e2 | v2
        · rw [h2, exceptBind_error] at hok; cases hok
        · obtain ⟨c2, e2', cnt2⟩ := v2
          rw [h2, exceptBind_ok] at hok
          dsimp only at hok
          injection hok with hok
          injection hok with hc hrest'
          injection hrest' with he hcnt
          have hsattop : σ (Var.b cnt) = 1 := by
            have hm : Cstr.rel ConstraintType.EQ (LinExpr.ofVar (Var.b cnt))
                (LinExpr.konst 1) [] ∈ cstrs := by
              rw [← hc]
              exact List.mem_cons_self _ _
            have hh' := sat_rel_true (hsat _ hm)
              (fun l hl => absurd hl (List.not_mem_nil l))
            rw [LinExpr.eval_ofVar, LinExpr.eval_konst] at hh'
            exact holds_EQ.mp hh'
          have hsat1 : ∀ c ∈ c1, Cstr.sat σ c = true := fun c hcc =>
            hsat c (hc ▸ List.mem_cons_of_mem _ (List.mem_append_left _ hcc))
          have hsat2 : ∀ c ∈ c2, Cstr.sat σ c = true := fun c hcc =>
            hsat c (hc ▸ List.mem_cons_of_mem _ (List.mem_append_right _ hcc))
          obtain ⟨n1, heq1, hnd1⟩ := hierNode_sound b σ h01 [Var.b cnt] (cnt + 1)
            hh c1 e1' cnt1 h1 hsat1
          obtain ⟨tops, n2, heq2, htops, hnd2⟩ := ih cnt1 c2 e2' cnt2 h2 hsat2
          refine ⟨Var.b cnt :: tops, n1 ++ n2, ?_, ?_, ?_⟩
          · rw [hierForest, heq1]
            dsimp only
            rw [heq2]
            dsimp only
            rw [hcnt]
          · intro v hv
            rcases List.mem_cons.mp hv with rfl | hmem
            · exact hsattop
            · exact htops v hmem
          · intro nd hnd hchain
            rcases List.mem_append.mp hnd with hm1 | hm2
            · exact hnd1 nd hm1 hchain
            · exact hnd2 nd hm2 hchain

/-- Claim C3: for the hierarchies added through `add_hierarchical_section_constraint`,
in every feasible solution of the compiled model, each root's top-level boolean
equals 1, and for every hierarchy node whose whole chain of enforcement booleans
is 1, every AND child's boolean is 1 and, if the node has OR children, at least
one OR child's boolean is 1. -/
theorem claim_C3_hierarchy_enforcement
    (b : SectionSetConstraint) (items : List Candidate) (σ : Var → ℤ)
    (hfeas : feasible b items σ = true) (h01 : ZeroOne σ) :
    (∀ v ∈ (hierForest 0 b.section_constraint_hierarchies).1, σ v = 1) ∧
    ∀ nd ∈ (hierForest 0 b.section_constraint_hierarchies).2.1,
      (∀ v ∈ nd.chain, σ v = 1) →
      (∀ v ∈ nd.andBools, σ v = 1) ∧
      (nd.orBools ≠ [] → ∃ v ∈ nd.orBools, σ v = 1) := by
  obtain ⟨cs, hok, hsat⟩ := feasible_decomp hfeas
  obtain ⟨p2, recs, cnt, p4, p5, h2, h4, h5, hcs⟩ := setup_ok_decomp hok
  have hsat2 : ∀ c ∈ p2, Cstr.sat σ c = true := by
    intro c hc
    refine hsat.of_mem ?_
    rw [hcs]
    exact List.mem_append_left _ (List.mem_append_left _ (List.mem_append_left _
      (List.mem_append_right _ hc)))
  obtain ⟨tops, nodes, heq, htops, hnds⟩ :=
    hierForest_sound b σ h01 0 b.section_constraint_hierarchies p2 recs cnt h2 hsat2
  rw [heq]
  exact ⟨htops, hnds⟩

/-- Sections 10, 11, 12 with the hierarchy: root 10, AND child 11, OR child 12. -/
def exB3 : SectionSetConstraint :=
  ((SectionSetConstraint.init 1).set_sections
    [exDomain 10, exDomain 11, exDomain 12]).add_hierarchical_section_constraint
    (SectionConstraintHierarchy.node 10
      [SectionConstraintHierarchy.node 11 [] []]
      [SectionConstraintHierarchy.node 12 [] []])

/-- Witness for C3: at the concrete hierarchy instance, the all-ones solution is
feasible and satisfies the enforcement discipline. -/
theorem claim_C3_witness :
    (∀ v ∈ (hierForest 0 exB3.section_constraint_hierarchies).1,
      exSigOnes v = 1) ∧
    ∀ nd ∈ (hierForest 0 exB3.section_constraint_hierarchies).2.1,
      (∀ v ∈ nd.chain, exSigOnes v = 1) →
      (∀ v ∈ nd.andBools, exSigOnes v = 1) ∧
      (nd.orBools ≠ [] → ∃ v ∈ nd.orBools, exSigOnes v = 1) :=
  claim_C3_hierarchy_enforcement exB3 exItems1 exSigOnes (by decide)
    (fun _ => Or.inr rfl)

/-! ## Claim C1 witness -/

/-- Witness for C1 at a concrete instance: one section, one item, the all-ones
feasible solution. -/
theorem claim_C1_witness :
    (∀ s, s < exB1.sections.length →
      exSigOnes (Var.asg 0 s) ≤ exSigOnes (Var.sel 0)) ∧
    (exSigOnes (Var.sel 0) = listMax
      (((List.range exB1.sections.length).map (fun s => Var.asg 0 s)).map exSigOnes)) ∧
    (exSigOnes (Var.sel 0) = 1 ↔
      ∃ s, s < exB1.sections.length ∧ exSigOnes (Var.asg 0 s) = 1) :=
  claim_C1_assignment_implies_selection_and_coverage exB1 exItems1 exSigOnes
    (by decide) (fun _ => Or.inr rfl) 0 (by decide)

end Frex
